import Mathlib

/-! CAS-based reader-writer lock (`cas.go`).

A shallow embedding of `casMutex`: the atomic `int32` state, the weight-1
turnstile semaphore and the swappable broadcast channel.

Part 1 gives every method its call-level meaning for one task running with
no other task stepping in between.  Part 2 gives the interleaving semantics:
one atomic step per `CAS`, atomic add, semaphore operation and channel swap,
with a program counter per task.  The proofs follow: call-level facts first,
then the invariants of the interleaving semantics. -/

namespace GoLock

/-! ## Part 1: data model and call-level semantics -/

/-- The constant `casStateUndefined casState = iota - 2`. -/
def casStateUndefined : Int := -2

/-- The constant `casStateWriteLock`, next in the `iota` block. -/
def casStateWriteLock : Int := -1

/-- The constant `casStateNoLock`. -/
def casStateNoLock : Int := 0

/-- The constant `casStateReadLock`: every value `>= 1` is classified as this
one. -/
def casStateReadLock : Int := 1

/-- Two's-complement wrap-around of Go's `int32` arithmetic. -/
def wrapInt32 (x : Int) : Int := (x + 2147483648) % 4294967296 - 2147483648

/-- The classification `casMutex.getState`: the write-lock and no-lock values
are returned as they are, every value `>= 1` is `casStateReadLock`, anything
else is `casStateUndefined`. -/
def getState (n : Int) : Int :=
  if n = casStateWriteLock then n
  else if n = casStateNoLock then n
  else if n ≥ casStateReadLock then casStateReadLock
  else casStateUndefined

/-- The struct `casMutex`.  `turnstile` is the number of permits of the
weight-1 semaphore that are taken (`cur` of `semaphore.Weighted`).
`broadcastChan` identifies the current broadcast channel: channels are
numbered in allocation order, `broadcast` installs the next number and closes
the old one, so a channel is closed exactly when its number is below the
current one. -/
structure CasMutex where
  state : Int
  turnstile : Nat
  broadcastChan : Nat
  deriving DecidableEq, Repr

/-- The constructor `NewCASMutex`. -/
def NewCASMutex : CasMutex :=
  { state := casStateNoLock, turnstile := 0, broadcastChan := 0 }

/-- Method `casMutex.listen`: the current broadcast channel. -/
def listen (m : CasMutex) : Nat := m.broadcastChan

/-- Method `casMutex.broadcast`: install a fresh channel and close the old
one. -/
def broadcast (m : CasMutex) : CasMutex :=
  { m with broadcastChan := m.broadcastChan + 1 }

/-- Whether channel `ch` has been closed (a receive on it is ready). -/
def isClosed (m : CasMutex) (ch : Nat) : Bool := decide (ch < m.broadcastChan)

/-- Go's `atomic.LoadInt32` on the state word. -/
def loadInt32 (m : CasMutex) : Int := m.state

/-- Go's `atomic.CompareAndSwapInt32` on the state word. -/
def compareAndSwapInt32 (m : CasMutex) (old new : Int) : Bool × CasMutex :=
  if m.state = old then (true, { m with state := new }) else (false, m)

/-- Go's `atomic.AddInt32` on the state word: returns the new value. -/
def addInt32 (m : CasMutex) (delta : Int) : Int × CasMutex :=
  (wrapInt32 (m.state + delta), { m with state := wrapInt32 (m.state + delta) })

/-- The call `semaphore.Weighted.TryAcquire(1)` on a semaphore of size 1. -/
def tryAcquire (m : CasMutex) : Bool × CasMutex :=
  if m.turnstile + 1 ≤ 1 then (true, { m with turnstile := m.turnstile + 1 }) else (false, m)

/-- The call `semaphore.Weighted.Release(1)`. -/
def release (m : CasMutex) : CasMutex :=
  { m with turnstile := m.turnstile - 1 }

/-- The contexts handed to the acquisition loops (Go's `nil` context is
`Option.none`).  `background` is never done.  `withTimeout elapsed` is a
`context.WithTimeout`: `elapsed` tells whether its deadline has already
passed when it is polled without blocking; a blocking wait on it always ends,
by the deadline, when nothing else becomes ready. -/
inductive Ctx where
  | background
  | withTimeout (elapsed : Bool)
  deriving DecidableEq, Repr

/-- Non-blocking poll of `ctx.Done()`. -/
def Ctx.done : Ctx → Bool
  | .background => false
  | .withTimeout elapsed => elapsed

/-- Whether a blocking wait on `ctx.Done()` ever ends. -/
def Ctx.expires : Ctx → Bool
  | .background => false
  | .withTimeout _ => true

/-- What a call does when no other task runs: it returns a value, or it is
parked for ever (nobody else will fire the channel or free the turnstile), or
the loop budget of the model ran out. -/
inductive Outcome (α : Type) where
  | ret (a : α) (m : CasMutex)
  | parked (m : CasMutex)
  | fuel
  deriving DecidableEq, Repr

/-- The call `semaphore.Weighted.Acquire(ctx, 1)` with no other task running: a done
context fails, a free permit is taken, otherwise the call waits for the
context (and fails) or for ever.  `ret true` is the `nil` error. -/
def acquire (ctx : Ctx) (m : CasMutex) : Outcome Bool :=
  if ctx.done then .ret false m
  else if m.turnstile + 1 ≤ 1 then .ret true { m with turnstile := m.turnstile + 1 }
  else if ctx.expires then .ret false m
  else .parked m

/-- Method `casMutex.tryLock`: the loop budget is the first argument. -/
def tryLock : Nat → Option Ctx → CasMutex → Outcome Bool
  | 0, _, _ => .fuel
  | fuel + 1, ctx, m =>
    let broker := listen m
    match compareAndSwapInt32 m casStateNoLock casStateWriteLock with
    | (true, m1) => .ret true m1
    | (false, m1) =>
      match ctx with
      | none => .ret false m1
      | some c =>
        if isClosed m1 broker then tryLock fuel ctx m1
        else if c.expires then .ret false m1
        else .parked m1

/-- Method `casMutex.Lock`. -/
def Lock (fuel : Nat) (m : CasMutex) : Outcome Unit :=
  match acquire .background m with
  | .ret _ m1 =>
    match tryLock fuel (some .background) m1 with
    | .ret _ m2 => .ret () (release m2)
    | .parked m2 => .parked m2
    | .fuel => .fuel
  | .parked m1 => .parked m1
  | .fuel => .fuel

/-- Method `casMutex.TryLock`. -/
def TryLock (fuel : Nat) (m : CasMutex) : Outcome Bool :=
  match tryAcquire m with
  | (false, m1) => .ret false m1
  | (true, m1) =>
    match tryLock fuel none m1 with
    | .ret ok m2 => .ret ok (release m2)
    | .parked m2 => .parked m2
    | .fuel => .fuel

/-- Method `casMutex.TryLockWithTimeout`: `ctx` is the context built from the
duration. -/
def TryLockWithTimeout (fuel : Nat) (elapsed : Bool) (m : CasMutex) : Outcome Bool :=
  let ctx := Ctx.withTimeout elapsed
  match acquire ctx m with
  | .ret false m1 => .ret false m1
  | .ret true m1 =>
    match tryLock fuel (some ctx) m1 with
    | .ret ok m2 => .ret ok (release m2)
    | .parked m2 => .parked m2
    | .fuel => .fuel
  | .parked m1 => .parked m1
  | .fuel => .fuel

/-- Method `casMutex.Unlock`: the first component is the panic value, if any.
-/
def Unlock (m : CasMutex) : Option String × CasMutex :=
  match compareAndSwapInt32 m casStateWriteLock casStateNoLock with
  | (false, m1) => (some "Unlock failed", m1)
  | (true, m1) => (none, broadcast m1)

/-- Method `casMutex.rTryLock`: the loop budget is the first argument. -/
def rTryLock : Nat → Option Ctx → CasMutex → Outcome Bool
  | 0, _, _ => .fuel
  | fuel + 1, ctx, m =>
    let broker := listen m
    let n := loadInt32 m
    let st := getState n
    let r :=
      if st = casStateNoLock ∨ st = casStateReadLock then
        compareAndSwapInt32 m n (wrapInt32 (n + 1))
      else (false, m)
    if r.1 then .ret true r.2
    else
      match ctx with
      | none => .ret false r.2
      | some c =>
        if c.done then .ret false r.2
        else if st = casStateNoLock ∨ st = casStateReadLock then rTryLock fuel ctx r.2
        else if isClosed r.2 broker then rTryLock fuel ctx r.2
        else if c.expires then .ret false r.2
        else .parked r.2

/-- Method `casMutex.RLock`. -/
def RLock (fuel : Nat) (m : CasMutex) : Outcome Unit :=
  match acquire .background m with
  | .ret _ m1 =>
    match rTryLock fuel (some .background) (release m1) with
    | .ret _ m2 => .ret () m2
    | .parked m2 => .parked m2
    | .fuel => .fuel
  | .parked m1 => .parked m1
  | .fuel => .fuel

/-- Method `casMutex.RTryLock`. -/
def RTryLock (fuel : Nat) (m : CasMutex) : Outcome Bool :=
  match tryAcquire m with
  | (false, m1) => .ret false m1
  | (true, m1) => rTryLock fuel none (release m1)

/-- Method `casMutex.RTryLockWithTimeout`. -/
def RTryLockWithTimeout (fuel : Nat) (elapsed : Bool) (m : CasMutex) : Outcome Bool :=
  let ctx := Ctx.withTimeout elapsed
  match acquire ctx m with
  | .ret false m1 => .ret false m1
  | .ret true m1 => rTryLock fuel (some ctx) (release m1)
  | .parked m1 => .parked m1
  | .fuel => .fuel

/-- Method `casMutex.RUnlock`: the first component is the panic value, if any.
-/
def RUnlock (m : CasMutex) : Option String × CasMutex :=
  let r := addInt32 m (-1)
  let st := getState r.1
  if st = casStateUndefined ∨ st = casStateWriteLock then (some "RUnlock failed", r.2)
  else if st = casStateNoLock then (none, broadcast r.2)
  else (none, r.2)

/-- The pattern of `TestCASTryLock`, "read lock then read lock", repeated:
`k` consecutive calls of `RTryLock` by one task.  The results come in call
order, with the lock as the last call left it; `none` when a call does not
return. -/
def rTryLockRepeat (fuel : Nat) : Nat → CasMutex → Option (List Bool × CasMutex)
  | 0, m => some ([], m)
  | k + 1, m =>
    match RTryLock fuel m with
    | .ret ok m1 => (rTryLockRepeat fuel k m1).map fun r => (ok :: r.1, r.2)
    | _ => none

/-! ## Part 2: interleaving semantics

Every task runs the methods of `cas.go` one atomic instruction at a time.  A
program counter records the instruction a task is at, together with the
locals that are live there (`ctx`, `broker`, `n`, `st`). -/

/-- The methods of the interface `CASMutex`. -/
inductive Op where
  | lock
  | tryLock
  | tryLockWithTimeout
  | unlock
  | rLock
  | rTryLock
  | rTryLockWithTimeout
  | rUnlock
  deriving DecidableEq, Repr

/-- Program points of a task.

* `idle last`: outside every method; `last` is the value the last call
  returned (`none` for the methods without a result).
* `wGate`: at `turnstile.TryAcquire` / `turnstile.Acquire` of
  `TryLock`, `Lock`, `TryLockWithTimeout`; `wListen`, `wCas`, `wSelect`: in
  the loop of `tryLock`, at `m.listen()`, at the `CAS` and at the final
  `select`; `wRelease`: at the deferred `turnstile.Release`.
* `rGate`, `rRelease`: at the acquire and the release of the turnstile in
  `RTryLock`, `RLock`, `RTryLockWithTimeout`; `rListen`, `rLoad`, `rCas`,
  `rPoll`, `rSelect`: in the loop of `rTryLock`, at `m.listen()`, at the
  atomic load, at the `CAS`, at the `select` with a `default` branch and at
  the final `select`.
* `uCas`, `uBroadcast`: in `Unlock`; `ruAdd`, `ruBroadcast`: in `RUnlock`. -/
inductive Pc where
  | idle (last : Option Bool)
  | panicked (msg : String)
  | wGate (ctx : Option Ctx)
  | wListen (ctx : Option Ctx)
  | wCas (ctx : Option Ctx) (broker : Nat)
  | wSelect (ctx : Ctx) (broker : Nat)
  | wRelease (ctx : Option Ctx) (ok : Bool)
  | rGate (ctx : Option Ctx)
  | rRelease (ctx : Option Ctx)
  | rListen (ctx : Option Ctx)
  | rLoad (ctx : Option Ctx) (broker : Nat)
  | rCas (ctx : Option Ctx) (broker : Nat) (n : Int)
  | rPoll (ctx : Ctx) (broker : Nat) (st : Int)
  | rSelect (ctx : Ctx) (broker : Nat)
  | uCas
  | uBroadcast
  | ruAdd
  | ruBroadcast
  deriving DecidableEq, Repr

/-- What the scheduler lets a task do: enter a method, run its next
instruction, or have the deadline of its context fire at the point where it
is waiting or polling. -/
inductive Act where
  | call (op : Op)
  | step
  | timeout
  deriving DecidableEq, Repr

/-- A configuration: the shared lock, the program counter of every task, and
the current holders (a task is entered when its acquiring `CAS` succeeds and
removed by the atomic operation of its release; `readers` has one entry per
read hold). -/
structure Conf where
  m : CasMutex
  pc : Nat → Pc
  writers : List Nat
  readers : List Nat

/-- A fresh lock and every task idle. -/
def Conf.init : Conf :=
  { m := NewCASMutex, pc := fun _ => .idle none, writers := [], readers := [] }

/-- Move task `t` to `p`, leaving the lock as it is. -/
def Conf.goto (c : Conf) (t : Nat) (p : Pc) : Conf :=
  { c with pc := Function.update c.pc t p }

/-- Move task `t` to `p` and store the lock `m1`. -/
def Conf.set (c : Conf) (t : Nat) (p : Pc) (m1 : CasMutex) : Conf :=
  { c with m := m1, pc := Function.update c.pc t p }

/-- The value a method hands back: `Lock` and `RLock` (background context)
have no result. -/
def retVal (ctx : Option Ctx) (ok : Bool) : Option Bool :=
  match ctx with
  | some .background => none
  | _ => some ok

/-- One atomic step of task `t`; `none` when the step is not enabled (the
task is blocked there, or the action does not apply).  `Unlock` and `RUnlock`
are only entered by a task that holds the lock in that mode. -/
def next (t : Nat) (a : Act) (c : Conf) : Option Conf :=
  match c.pc t, a with
  | .idle _, .call .lock => some (c.goto t (.wGate (some .background)))
  | .idle _, .call .tryLock => some (c.goto t (.wGate none))
  | .idle _, .call .tryLockWithTimeout => some (c.goto t (.wGate (some (.withTimeout false))))
  | .idle _, .call .unlock => if t ∈ c.writers then some (c.goto t .uCas) else none
  | .idle _, .call .rLock => some (c.goto t (.rGate (some .background)))
  | .idle _, .call .rTryLock => some (c.goto t (.rGate none))
  | .idle _, .call .rTryLockWithTimeout => some (c.goto t (.rGate (some (.withTimeout false))))
  | .idle _, .call .rUnlock => if t ∈ c.readers then some (c.goto t .ruAdd) else none
  | .wGate none, .step =>
    match tryAcquire c.m with
    | (true, m1) => some (c.set t (.wListen none) m1)
    | (false, m1) => some (c.set t (.idle (some false)) m1)
  | .wGate (some ctx), .step =>
    match tryAcquire c.m with
    | (true, m1) => some (c.set t (.wListen (some ctx)) m1)
    | (false, _) => none
  | .wGate (some ctx), .timeout =>
    if ctx.expires then some (c.goto t (.idle (some false))) else none
  | .wListen ctx, .step => some (c.goto t (.wCas ctx (listen c.m)))
  | .wCas ctx broker, .step =>
    match compareAndSwapInt32 c.m casStateNoLock casStateWriteLock with
    | (true, m1) => some { c.set t (.wRelease ctx true) m1 with writers := t :: c.writers }
    | (false, m1) =>
      match ctx with
      | none => some (c.set t (.wRelease none false) m1)
      | some x => some (c.set t (.wSelect x broker) m1)
  | .wSelect ctx broker, .step =>
    if isClosed c.m broker then some (c.goto t (.wListen (some ctx))) else none
  | .wSelect ctx _, .timeout =>
    if ctx.expires then some (c.goto t (.wRelease (some ctx) false)) else none
  | .wRelease ctx ok, .step => some (c.set t (.idle (retVal ctx ok)) (release c.m))
  | .rGate none, .step =>
    match tryAcquire c.m with
    | (true, m1) => some (c.set t (.rRelease none) m1)
    | (false, m1) => some (c.set t (.idle (some false)) m1)
  | .rGate (some ctx), .step =>
    match tryAcquire c.m with
    | (true, m1) => some (c.set t (.rRelease (some ctx)) m1)
    | (false, _) => none
  | .rGate (some ctx), .timeout =>
    if ctx.expires then some (c.goto t (.idle (some false))) else none
  | .rRelease ctx, .step => some (c.set t (.rListen ctx) (release c.m))
  | .rListen ctx, .step => some (c.goto t (.rLoad ctx (listen c.m)))
  | .rLoad ctx broker, .step =>
    if getState (loadInt32 c.m) = casStateNoLock ∨ getState (loadInt32 c.m) = casStateReadLock then
      some (c.goto t (.rCas ctx broker (loadInt32 c.m)))
    else
      match ctx with
      | none => some (c.goto t (.idle (some false)))
      | some x => some (c.goto t (.rPoll x broker (getState (loadInt32 c.m))))
  | .rCas ctx broker n, .step =>
    match compareAndSwapInt32 c.m n (wrapInt32 (n + 1)) with
    | (true, m1) => some { c.set t (.idle (retVal ctx true)) m1 with readers := t :: c.readers }
    | (false, m1) =>
      match ctx with
      | none => some (c.set t (.idle (some false)) m1)
      | some x => some (c.set t (.rPoll x broker (getState n)) m1)
  | .rPoll ctx broker st, .step =>
    if st = casStateNoLock ∨ st = casStateReadLock then some (c.goto t (.rListen (some ctx)))
    else some (c.goto t (.rSelect ctx broker))
  | .rPoll ctx _ _, .timeout =>
    if ctx.expires then some (c.goto t (.idle (some false))) else none
  | .rSelect ctx broker, .step =>
    if isClosed c.m broker then some (c.goto t (.rListen (some ctx))) else none
  | .rSelect ctx _, .timeout =>
    if ctx.expires then some (c.goto t (.idle (some false))) else none
  | .uCas, .step =>
    match compareAndSwapInt32 c.m casStateWriteLock casStateNoLock with
    | (true, m1) => some { c.set t .uBroadcast m1 with writers := c.writers.erase t }
    | (false, m1) => some (c.set t (.panicked "Unlock failed") m1)
  | .uBroadcast, .step => some (c.set t (.idle none) (broadcast c.m))
  | .ruAdd, .step =>
    if getState (addInt32 c.m (-1)).1 = casStateUndefined
        ∨ getState (addInt32 c.m (-1)).1 = casStateWriteLock then
      some { c.set t (.panicked "RUnlock failed") (addInt32 c.m (-1)).2 with
             readers := c.readers.erase t }
    else if getState (addInt32 c.m (-1)).1 = casStateNoLock then
      some { c.set t .ruBroadcast (addInt32 c.m (-1)).2 with readers := c.readers.erase t }
    else
      some { c.set t (.idle none) (addInt32 c.m (-1)).2 with readers := c.readers.erase t }
  | .ruBroadcast, .step => some (c.set t (.idle none) (broadcast c.m))
  | _, _ => none

/-- Run a schedule, a list of (task, action) pairs, from a configuration. -/
def run : List (Nat × Act) → Conf → Option Conf
  | [], c => some c
  | (t, a) :: rest, c =>
    match next t a c with
    | some c1 => run rest c1
    | none => none

/-- The configurations that some schedule reaches from `Conf.init`. -/
inductive Reachable : Conf → Prop where
  | init : Reachable Conf.init
  | step {c c1 : Conf} (t : Nat) (a : Act) : Reachable c → next t a c = some c1 → Reachable c1

/-- Holders and state word agree: either nobody holds the write lock and the
state is the `int32` image of the number of read holds, or exactly one task
holds the write lock, nobody holds a read lock and the state is `WriteLock`. -/
def Conf.exclusive (c : Conf) : Prop :=
  (c.writers = [] ∧ (c.readers.length : Int) ≤ 2147483648
      ∧ c.m.state = wrapInt32 c.readers.length)
    ∨ (∃ w, c.writers = [w] ∧ c.readers = [] ∧ c.m.state = casStateWriteLock)

/-- The invariant behind mutual exclusion: `exclusive`, a task inside
`Unlock` / `RUnlock` before its atomic operation still holds the lock in that
mode, and the value a reader is about to `CAS` from is non-negative. -/
structure Conf.Inv (c : Conf) : Prop where
  excl : c.exclusive
  unlocking : ∀ t, c.pc t = .uCas → t ∈ c.writers
  runlocking : ∀ t, c.pc t = .ruAdd → t ∈ c.readers
  snapshot : ∀ t ctx broker n, c.pc t = .rCas ctx broker n → 0 ≤ n

/-- The program points at which a task holds the turnstile permit: from a
successful acquire up to the matching `Release`. -/
def Pc.holdsPermit : Pc → Bool
  | .wListen _ | .wCas _ _ | .wSelect _ _ | .wRelease _ _ | .rRelease _ => true
  | _ => false

/-- A writer inside an acquisition attempt, holding the permit: in the loop of
`tryLock` or at the deferred `Release`. -/
def Pc.writerInside : Pc → Bool
  | .wListen _ | .wCas _ _ | .wSelect _ _ | .wRelease _ _ => true
  | _ => false

/-- A writer inside `Lock` that has the permit and has not won the `CAS` yet:
in the loop of `tryLock` under the background context. -/
def Pc.lockWaiting : Pc → Bool
  | .wListen (some .background) | .wCas (some .background) _ | .wSelect .background _ => true
  | _ => false

/-- A reader that has passed the turnstile (acquired and released the permit)
and is in the loop of `rTryLock`. -/
def Pc.readerPastGate : Pc → Bool
  | .rListen _ | .rLoad _ _ | .rCas _ _ _ | .rPoll _ _ _ | .rSelect _ _ => true
  | _ => false

/-- A task that is at the turnstile, about to `TryAcquire` / `Acquire`. -/
def Pc.atGate : Pc → Bool
  | .wGate _ | .rGate _ => true
  | _ => false

/-- A task that is outside the lock protocol or has not passed the turnstile
yet. -/
def Pc.outside : Pc → Bool
  | .idle _ | .panicked _ | .wGate _ | .rGate _ => true
  | _ => false

/-- A task between the atomic operation of a release and its `broadcast`. -/
def Pc.broadcasting : Pc → Bool
  | .uBroadcast | .ruBroadcast => true
  | _ => false

/-- The broadcast channel a task has snapshotted and may wait on. -/
def Pc.broker : Pc → Option Nat
  | .wCas _ b | .wSelect _ b | .rLoad _ b | .rCas _ b _ | .rPoll _ b _ | .rSelect _ b => some b
  | _ => none

/-- The turnstile is a weight-1 semaphore: the number of permits taken is the
number of tasks at a permit-holding program point, and that is at most one. -/
def Conf.gateOk (c : Conf) : Prop :=
  (c.m.turnstile = 0 ∧ ∀ t, (c.pc t).holdsPermit = false)
    ∨ (c.m.turnstile = 1 ∧ ∃ w, (c.pc w).holdsPermit = true
        ∧ ∀ t, (c.pc t).holdsPermit = true → t = w)

/-- No wakeup is missed: every snapshotted channel is the current one or an
older one, and a writer parked on a channel that is still open while the
state is `NoLock` has a releasing task about to broadcast. -/
structure Conf.wakeOk (c : Conf) : Prop where
  old : ∀ t b, (c.pc t).broker = some b → b ≤ c.m.broadcastChan
  parkedWriter : ∀ t ctx b, c.pc t = .wSelect ctx b →
    b < c.m.broadcastChan ∨ c.m.state ≠ casStateNoLock ∨ ∃ u, (c.pc u).broadcasting = true

/-- With the writer `w` waiting in `Lock`: nobody holds the lock and every
other task is outside the protocol or still at the turnstile. -/
def Conf.settled (c : Conf) (w : Nat) : Prop :=
  c.writers = [] ∧ c.readers = [] ∧ ∀ t, t ≠ w → (c.pc t).outside = true

/-- How many steps a writer waiting in `Lock` is away from winning the `CAS`.
-/
def Pc.rank : Pc → Nat
  | .wSelect _ _ => 3
  | .wListen _ => 2
  | .wCas _ _ => 1
  | _ => 0

/-- A schedule: writer 0 takes the lock; reader 1 enters `RLock`, passes the
turnstile and parks in `rTryLock`; writer 2 enters `Lock`, takes the permit,
fails its `CAS` and parks; writer 0 unlocks and broadcasts; reader 1 wakes up
first, snapshots, loads the state 0 and stands at its `CAS`. -/
def lateWakeSchedule : List (Nat × Act) :=
  [(0, .call .lock), (0, .step), (0, .step), (0, .step), (0, .step),
   (1, .call .rLock), (1, .step), (1, .step), (1, .step), (1, .step), (1, .step),
   (2, .call .lock), (2, .step), (2, .step), (2, .step),
   (0, .call .unlock), (0, .step), (0, .step),
   (1, .step), (1, .step), (1, .step)]

/-- Task `t` is still behind writer `w`: either `w` waits in `Lock` with the
permit while `t` is outside the protocol and holds nothing, or `w` holds the
write lock and has not entered `Unlock`. -/
def Conf.behind (c : Conf) (w t : Nat) : Prop :=
  ((c.pc w).lockWaiting = true ∧ (c.pc t).outside = true ∧ t ∉ c.readers ∧ t ∉ c.writers)
    ∨ (w ∈ c.writers ∧ c.pc w ≠ .uCas)

/-- The first part of `TestCASNoStarve`: readers 0 and 1 take the read lock;
writer 2 enters `Lock`, takes the permit, fails its `CAS` and parks; reader 3
enters `RLock` and stands at the turnstile; task 4 sees `TryLock`,
`TryLockWithTimeout`, `RTryLock` and `RTryLockWithTimeout` fail; then readers
0 and 1 call `RUnlock`, the second of them broadcasting. -/
def noStarveWaiting : List (Nat × Act) :=
  [(0, .call .rLock), (0, .step), (0, .step), (0, .step), (0, .step), (0, .step),
   (1, .call .rLock), (1, .step), (1, .step), (1, .step), (1, .step), (1, .step),
   (2, .call .lock), (2, .step), (2, .step), (2, .step),
   (3, .call .rLock),
   (4, .call .tryLock), (4, .step), (4, .call .tryLockWithTimeout), (4, .timeout),
   (4, .call .rTryLock), (4, .step), (4, .call .rTryLockWithTimeout), (4, .timeout),
   (0, .call .rUnlock), (0, .step),
   (1, .call .rUnlock), (1, .step), (1, .step)]

/-- The second part of `TestCASNoStarve`: writer 2 wakes up, wins its `CAS`
and returns from `Lock`; reader 3 passes the turnstile and parks behind the
write lock. -/
def noStarveWriter : List (Nat × Act) :=
  [(2, .step), (2, .step), (2, .step), (2, .step),
   (3, .step), (3, .step), (3, .step), (3, .step), (3, .step)]

/-- The last part of `TestCASNoStarve`: writer 2 unlocks and reader 3 wakes up
and takes the read lock. -/
def noStarveReader : List (Nat × Act) :=
  [(2, .call .unlock), (2, .step), (2, .step),
   (3, .step), (3, .step), (3, .step), (3, .step)]

/-- A schedule with a reader that is slow to wake up: writer 0 holds the lock
while readers 1 and 2 enter `RLock`, pass the turnstile and park; writer 0
unlocks; reader 1 wakes up and takes the read lock; writer 3 enters `Lock`,
takes the permit, fails its `CAS` and parks. -/
def slowReaderWaiting : List (Nat × Act) :=
  [(0, .call .lock), (0, .step), (0, .step), (0, .step), (0, .step),
   (1, .call .rLock), (1, .step), (1, .step), (1, .step), (1, .step), (1, .step),
   (2, .call .rLock), (2, .step), (2, .step), (2, .step), (2, .step), (2, .step),
   (0, .call .unlock), (0, .step), (0, .step),
   (1, .step), (1, .step), (1, .step), (1, .step),
   (3, .call .lock), (3, .step), (3, .step), (3, .step)]

/-- The continuation of `slowReaderWaiting`: reader 2 wakes up and takes the
read lock as well; reader 1, the only holder when writer 3 began to wait,
calls `RUnlock`. -/
def slowReaderLate : List (Nat × Act) :=
  [(2, .step), (2, .step), (2, .step), (2, .step),
   (1, .call .rUnlock), (1, .step)]

/-- One call of `RTryLock` by task `t` with no other task stepping in between:
entering the method, then `TryAcquire`, `Release`, `listen`, the atomic load
and the `CAS`. -/
def soloRTryLock (t : Nat) : List (Nat × Act) :=
  [(t, .call .rTryLock), (t, .step), (t, .step), (t, .step), (t, .step), (t, .step)]

/-- A schedule with two readers racing: reader 0 takes the read lock; task 1
enters `RTryLock`, passes the turnstile, snapshots and loads the state 1;
reader 2 takes the read lock in between; task 1 then does its single `CAS`.
-/
def readerRaceSchedule : List (Nat × Act) :=
  [(0, .call .rLock), (0, .step), (0, .step), (0, .step), (0, .step), (0, .step),
   (1, .call .rTryLock), (1, .step), (1, .step), (1, .step), (1, .step),
   (2, .call .rLock), (2, .step), (2, .step), (2, .step), (2, .step), (2, .step),
   (1, .step)]

/-! ## Call-level facts -/

theorem wrapInt32_of_range {x : Int} (h1 : -2147483648 ≤ x) (h2 : x ≤ 2147483647) :
    wrapInt32 x = x := by
  unfold wrapInt32; omega

theorem getState_nonneg_iff (n : Int) :
    (getState n = casStateNoLock ∨ getState n = casStateReadLock) ↔ 0 ≤ n := by
  simp only [getState, casStateNoLock, casStateReadLock, casStateWriteLock, casStateUndefined]
  split_ifs <;> first | omega | (simp; omega)

theorem tryLock_succ_nil (fuel : Nat) (m : CasMutex) :
    tryLock (fuel + 1) none m =
      if m.state = 0 then .ret true { m with state := -1 } else .ret false m := by
  simp only [tryLock, compareAndSwapInt32, casStateNoLock, casStateWriteLock]
  split_ifs <;> rfl

theorem tryLock_unchanged (fuel : Nat) (ctx : Option Ctx) (m m1 : CasMutex)
    (h : tryLock fuel ctx m = .ret false m1) : m1 = m := by
  induction fuel with
  | zero => simp [tryLock] at h
  | succ k ih =>
    simp only [tryLock, compareAndSwapInt32] at h
    split_ifs at h with h0
    · simp at h
    · cases ctx with
      | none => simp at h; exact h.symm
      | some c =>
        simp only at h
        split_ifs at h with h1 h2
        · exact ih h
        · simp at h; exact h.symm

theorem rTryLock_succ_nil (fuel : Nat) (m : CasMutex) :
    rTryLock (fuel + 1) none m =
      if 0 ≤ m.state then .ret true { m with state := wrapInt32 (m.state + 1) }
      else .ret false m := by
  have hg := getState_nonneg_iff m.state
  simp only [rTryLock, compareAndSwapInt32, loadInt32]
  by_cases h : 0 ≤ m.state
  · simp [h, hg.2 h]
  · have : ¬ (getState m.state = casStateNoLock ∨ getState m.state = casStateReadLock) :=
      fun hh => h (hg.1 hh)
    simp [h, this]

theorem rTryLock_unchanged (fuel : Nat) (ctx : Option Ctx) (m m1 : CasMutex)
    (h : rTryLock fuel ctx m = .ret false m1) : m1 = m := by
  induction fuel with
  | zero => simp [rTryLock] at h
  | succ k ih =>
    simp only [rTryLock, compareAndSwapInt32, loadInt32] at h
    by_cases hs : getState m.state = casStateNoLock ∨ getState m.state = casStateReadLock
    · simp [hs] at h
    · simp only [hs, if_false] at h
      cases ctx with
      | none => simp at h; exact h.symm
      | some c =>
        simp only at h
        split_ifs at h
        all_goals first
          | exact ih h
          | (simp at h; exact h.symm)
          | (simp at h)

/-- C2: `TryLock` returns true exactly when the turnstile permit is free and
the state is `NoLock`, and then the state becomes `WriteLock`; otherwise it
returns false and changes nothing.  In particular it returns false while a
writer (state -1) or a reader (state at least 1) holds the lock, and the
write-then-write and read-then-write scenarios of `TestCASTryLock` come out as
the test says, with `TryLock` succeeding again after the matching release. -/
theorem C2_TryLock_iff_free_and_NoLock :
    (∀ (fuel : Nat) (m : CasMutex),
        TryLock (fuel + 1) m =
          if m.turnstile = 0 ∧ m.state = casStateNoLock then
            .ret true { m with state := casStateWriteLock }
          else .ret false m)
    ∧ (∀ (fuel : Nat) (m m1 : CasMutex),
        TryLock (fuel + 1) m = .ret true m1 ↔
          (m.turnstile = 0 ∧ m.state = casStateNoLock)
            ∧ m1 = { m with state := casStateWriteLock })
    ∧ (∀ (fuel : Nat) (m : CasMutex),
        m.state = casStateWriteLock ∨ 1 ≤ m.state → TryLock (fuel + 1) m = .ret false m)
    ∧ (TryLock 1 NewCASMutex = .ret true ⟨-1, 0, 0⟩
        ∧ TryLock 1 ⟨-1, 0, 0⟩ = .ret false ⟨-1, 0, 0⟩
        ∧ Unlock ⟨-1, 0, 0⟩ = (none, ⟨0, 0, 1⟩)
        ∧ TryLock 1 ⟨0, 0, 1⟩ = .ret true ⟨-1, 0, 1⟩)
    ∧ (RTryLock 1 NewCASMutex = .ret true ⟨1, 0, 0⟩
        ∧ TryLock 1 ⟨1, 0, 0⟩ = .ret false ⟨1, 0, 0⟩
        ∧ RUnlock ⟨1, 0, 0⟩ = (none, ⟨0, 0, 1⟩)
        ∧ TryLock 1 ⟨0, 0, 1⟩ = .ret true ⟨-1, 0, 1⟩) := by
  have key : ∀ (fuel : Nat) (m : CasMutex),
      TryLock (fuel + 1) m =
        if m.turnstile = 0 ∧ m.state = casStateNoLock then
          .ret true { m with state := casStateWriteLock }
        else .ret false m := by
    intro fuel m
    simp only [TryLock, tryAcquire, tryLock_succ_nil, release, casStateNoLock, casStateWriteLock]
    by_cases hg : m.turnstile = 0
    · by_cases hs : m.state = 0
      · simp [hg, hs]
      · cases m; simp_all
    · have : ¬ (m.turnstile + 1 ≤ 1) := by omega
      simp [hg, this]
  refine ⟨key, ?_, ?_, ?_, ?_⟩
  · intro fuel m m1
    rw [key]
    split_ifs with h
    · constructor
      · intro e; injection e with _ e2; exact ⟨h, e2.symm⟩
      · rintro ⟨_, e⟩; rw [e]
    · constructor
      · intro e; simp at e
      · rintro ⟨h1, _⟩; exact absurd h1 h
  · intro fuel m h
    rw [key]
    have : ¬ (m.turnstile = 0 ∧ m.state = casStateNoLock) := by
      simp only [casStateNoLock, casStateWriteLock] at *
      omega
    simp [this]
  · exact ⟨by decide, by decide, by decide, by decide⟩
  · exact ⟨by decide, by decide, by decide, by decide⟩

/-- C3, as stated, fails at the largest `int32`: with the permit free and the
state 2147483647, `RTryLock` returns true but the state afterwards is
-2147483648, not 2147483648. -/
theorem C3_counterexample_max_int32 :
    RTryLock 1 ⟨2147483647, 0, 0⟩ = .ret true ⟨-2147483648, 0, 0⟩
      ∧ ¬ ∃ m1, RTryLock 1 ⟨2147483647, 0, 0⟩ = .ret true m1 ∧ m1.state = 2147483647 + 1 := by
  have h : RTryLock 1 ⟨2147483647, 0, 0⟩ = .ret true ⟨-2147483648, 0, 0⟩ := by decide
  refine ⟨h, ?_⟩
  rintro ⟨m1, h1, h2⟩
  rw [h] at h1
  injection h1 with _ e
  rw [← e] at h2
  simp at h2

/-- C3, amended: with the turnstile permit free and no other task stepping,
`RTryLock` returns true exactly when the state is `n >= 0`; the state
afterwards is the `int32` successor of `n`, which is `n + 1` whenever
`n < 2147483647`; it returns false, changing nothing, when the state is
negative, in particular `WriteLock`.  The permit is free again afterwards in
both cases. -/
theorem C3_RTryLock_gate_free (fuel : Nat) (m : CasMutex) (hgate : m.turnstile = 0) :
    (RTryLock (fuel + 1) m =
        if 0 ≤ m.state then .ret true { m with state := wrapInt32 (m.state + 1) }
        else .ret false m)
    ∧ (∀ m1, RTryLock (fuel + 1) m = .ret true m1 ↔
        0 ≤ m.state ∧ m1 = { m with state := wrapInt32 (m.state + 1) })
    ∧ (0 ≤ m.state → m.state < 2147483647 →
        RTryLock (fuel + 1) m = .ret true { m with state := m.state + 1 })
    ∧ (m.state = casStateWriteLock → RTryLock (fuel + 1) m = .ret false m)
    ∧ (∀ ok m1, RTryLock (fuel + 1) m = .ret ok m1 →
        m1.turnstile = 0 ∧ m1.broadcastChan = m.broadcastChan) := by
  have hrel : release { m with turnstile := m.turnstile + 1 } = m := by
    cases m; simp [release]
  have key : RTryLock (fuel + 1) m =
      if 0 ≤ m.state then .ret true { m with state := wrapInt32 (m.state + 1) }
      else .ret false m := by
    have : m.turnstile + 1 ≤ 1 := by omega
    simp only [RTryLock, tryAcquire, this, if_true, hrel, rTryLock_succ_nil]
  refine ⟨key, ?_, ?_, ?_, ?_⟩
  · intro m1
    rw [key]
    split_ifs with h
    · constructor
      · intro e; injection e with _ e2; exact ⟨h, e2.symm⟩
      · rintro ⟨_, e⟩; rw [e]
    · constructor
      · intro e; simp at e
      · rintro ⟨h1, _⟩; exact absurd h1 h
  · intro h0 h1
    rw [key, if_pos h0, wrapInt32_of_range (by omega) (by omega)]
  · intro h
    rw [key, if_neg (by simp only [casStateWriteLock] at h; omega)]
  · intro ok m1 h
    rw [key] at h
    split_ifs at h <;> injection h with _ e <;> subst e <;> simp [hgate]

/-- C3 at a concrete lock: a fresh lock, and a lock held by two readers. -/
theorem C3_RTryLock_gate_free_witness :
    RTryLock 1 ⟨2, 0, 0⟩ = .ret true ⟨3, 0, 0⟩ :=
  (C3_RTryLock_gate_free 0 ⟨2, 0, 0⟩ rfl).2.2.1 (by decide) (by decide)

/-- C4: `Unlock` panics, with the value "Unlock failed", exactly when the
state is not `WriteLock`; then nothing changes.  Otherwise the state becomes
`NoLock`, the channel that was current is closed and its successor, still
open, is installed.  `RLock` followed by `Unlock` on a fresh lock panics. -/
theorem C4_Unlock_panics_iff_not_WriteLock :
    (∀ m : CasMutex,
        Unlock m =
          if m.state = casStateWriteLock then
            (none, { m with state := casStateNoLock, broadcastChan := m.broadcastChan + 1 })
          else (some "Unlock failed", m))
    ∧ (∀ m : CasMutex, (Unlock m).1 = some "Unlock failed" ↔ m.state ≠ casStateWriteLock)
    ∧ (∀ m : CasMutex, (Unlock m).1 ≠ none → (Unlock m).2 = m)
    ∧ (∀ m : CasMutex, (Unlock m).1 = none →
        (Unlock m).2.state = casStateNoLock
          ∧ (Unlock m).2.turnstile = m.turnstile
          ∧ listen (Unlock m).2 = listen m + 1
          ∧ isClosed (Unlock m).2 (listen m) = true
          ∧ isClosed m (listen m) = false
          ∧ isClosed (Unlock m).2 (listen (Unlock m).2) = false)
    ∧ (RLock 1 NewCASMutex = .ret () ⟨1, 0, 0⟩
        ∧ Unlock ⟨1, 0, 0⟩ = (some "Unlock failed", ⟨1, 0, 0⟩)) := by
  have key : ∀ m : CasMutex,
      Unlock m =
        if m.state = casStateWriteLock then
          (none, { m with state := casStateNoLock, broadcastChan := m.broadcastChan + 1 })
        else (some "Unlock failed", m) := by
    intro m
    simp only [Unlock, compareAndSwapInt32, broadcast]
    split_ifs <;> rfl
  refine ⟨key, ?_, ?_, ?_, by decide, by decide⟩
  · intro m; rw [key]; split_ifs with h <;> simp [h]
  · intro m; rw [key]; split_ifs with h <;> simp
  · intro m; rw [key]; split_ifs with h <;> simp [listen, isClosed]

/-- C5, as stated, fails below `WriteLock`: `Lock` followed by `RUnlock` on a
fresh lock leaves the state at -2, and there `RUnlock` panics again, with the
value "RUnlock failed", although the state before the call is neither
`NoLock` nor `WriteLock`. -/
theorem C5_counterexample_below_WriteLock :
    Lock 1 NewCASMutex = .ret () ⟨-1, 0, 0⟩
      ∧ RUnlock ⟨-1, 0, 0⟩ = (some "RUnlock failed", ⟨-2, 0, 0⟩)
      ∧ (RUnlock ⟨-2, 0, 0⟩).1 = some "RUnlock failed"
      ∧ ¬ ((CasMutex.mk (-2) 0 0).state = casStateNoLock
            ∨ (CasMutex.mk (-2) 0 0).state = casStateWriteLock)
      ∧ ¬ ((RUnlock ⟨-2, 0, 0⟩).1 = some "RUnlock failed" ↔
            ((CasMutex.mk (-2) 0 0).state = casStateNoLock
              ∨ (CasMutex.mk (-2) 0 0).state = casStateWriteLock)) := by
  refine ⟨by decide, by decide, by decide, by decide, ?_⟩
  intro h
  exact absurd (h.1 (by decide)) (by decide)

/-- C5, amended: for every `int32` state, `RUnlock` panics, and then with the
value "RUnlock failed", exactly when the state before the call is at most 0
and is not -2147483648: that is `NoLock`, `WriteLock`, or an `Undefined` value
from -2 down to -2147483647.  At -2147483648 the decrement wraps to 2147483647
and the call does not panic.  From `ReadLock(n)`, `n >= 1`, it does not panic,
the state becomes `n - 1`, and the channel is closed and replaced exactly when
`n = 1`. -/
theorem C5_RUnlock_panics_iff_no_reader (m : CasMutex)
    (hmin : -2147483648 ≤ m.state) (hhi : m.state ≤ 2147483647) :
    ((RUnlock m).1 = some "RUnlock failed" ↔ m.state ≤ 0 ∧ m.state ≠ -2147483648)
    ∧ ((RUnlock m).1 = none ∨ (RUnlock m).1 = some "RUnlock failed")
    ∧ (m.state = casStateNoLock ∨ m.state = casStateWriteLock →
        (RUnlock m).1 = some "RUnlock failed")
    ∧ (m.state = -2147483648 → RUnlock m = (none, { m with state := 2147483647 }))
    ∧ (1 ≤ m.state →
        (RUnlock m).1 = none
          ∧ (RUnlock m).2.state = m.state - 1
          ∧ (RUnlock m).2.turnstile = m.turnstile
          ∧ (m.state = 1 →
              listen (RUnlock m).2 = listen m + 1 ∧ isClosed (RUnlock m).2 (listen m) = true)
          ∧ (m.state ≠ 1 → listen (RUnlock m).2 = listen m)
          ∧ (listen (RUnlock m).2 ≠ listen m ↔ m.state = 1)) := by
  simp only [casStateWriteLock, casStateNoLock] at *
  have key : RUnlock m =
      if m.state = -2147483648 then (none, { m with state := 2147483647 })
      else if m.state ≤ 0 then (some "RUnlock failed", { m with state := m.state - 1 })
      else if m.state = 1 then
        (none, { m with state := m.state - 1, broadcastChan := m.broadcastChan + 1 })
      else (none, { m with state := m.state - 1 }) := by
    by_cases hm : m.state = -2147483648
    · simp [RUnlock, addInt32, hm, wrapInt32, getState, broadcast, casStateWriteLock,
        casStateNoLock, casStateReadLock, casStateUndefined]
    · have hw : wrapInt32 (m.state + -1) = m.state - 1 := by
        rw [show m.state + -1 = m.state - 1 by ring]
        exact wrapInt32_of_range (by omega) (by omega)
      simp only [RUnlock, addInt32, hw, getState, broadcast, casStateWriteLock, casStateNoLock,
        casStateReadLock, casStateUndefined, hm, if_false]
      by_cases h0 : m.state ≤ 0
      · by_cases h1 : m.state = 0
        · simp [h1]
        · have a1 : ¬ (m.state - 1 = -1) := by omega
          have a2 : ¬ (m.state - 1 = 0) := by omega
          have a3 : ¬ (m.state - 1 ≥ 1) := by omega
          simp [h0, a1, a2, a3]
      · by_cases h2 : m.state = 1
        · simp [h2]
        · have a1 : ¬ (m.state - 1 = -1) := by omega
          have a2 : ¬ (m.state - 1 = 0) := by omega
          have a3 : m.state - 1 ≥ 1 := by omega
          simp [h0, h2, a1, a2, a3]
  refine ⟨?_, ?_, ?_, ?_, ?_⟩
  · rw [key]; split_ifs <;> simp <;> omega
  · rw [key]; split_ifs <;> simp
  · intro h
    rw [key, if_neg (by omega), if_pos (by omega)]
  · intro h
    rw [key, if_pos h]
  · intro h1
    rw [key, if_neg (by omega), if_neg (by omega)]
    split_ifs with h <;> simp [h, listen, isClosed]

/-- C5 amended at concrete locks, with the scenario of
`TestInvalidCASRUnlock`: `Lock` then `RUnlock` on a fresh lock panics; so does
`RUnlock` on an unheld lock and on the state -2; it does not panic on a lock
held by two readers. -/
theorem C5_RUnlock_panics_iff_no_reader_witness :
    Lock 1 NewCASMutex = .ret () ⟨-1, 0, 0⟩
      ∧ (RUnlock ⟨-1, 0, 0⟩).1 = some "RUnlock failed"
      ∧ (RUnlock ⟨0, 0, 0⟩).1 = some "RUnlock failed"
      ∧ (RUnlock ⟨-2, 0, 0⟩).1 = some "RUnlock failed"
      ∧ ((RUnlock ⟨2, 0, 0⟩).1 = none ∧ (RUnlock ⟨2, 0, 0⟩).2.state = 2 - 1) :=
  ⟨by decide,
   (C5_RUnlock_panics_iff_no_reader ⟨-1, 0, 0⟩ (by decide) (by decide)).2.2.1 (Or.inr rfl),
   (C5_RUnlock_panics_iff_no_reader ⟨0, 0, 0⟩ (by decide) (by decide)).2.2.1 (Or.inl rfl),
   (C5_RUnlock_panics_iff_no_reader ⟨-2, 0, 0⟩ (by decide) (by decide)).1.2 (by decide),
   ((C5_RUnlock_panics_iff_no_reader ⟨2, 0, 0⟩ (by decide) (by decide)).2.2.2.2
      (by decide)).1,
   ((C5_RUnlock_panics_iff_no_reader ⟨2, 0, 0⟩ (by decide) (by decide)).2.2.2.2
      (by decide)).2.1⟩

theorem rTryLock_ret_true (fuel : Nat) (ctx : Option Ctx) (m m1 : CasMutex)
    (h : rTryLock fuel ctx m = .ret true m1) :
    0 ≤ m.state ∧ m1 = { m with state := wrapInt32 (m.state + 1) } := by
  induction fuel with
  | zero => simp [rTryLock] at h
  | succ k ih =>
    have hg := getState_nonneg_iff m.state
    simp only [rTryLock, compareAndSwapInt32, loadInt32] at h
    by_cases hs : getState m.state = casStateNoLock ∨ getState m.state = casStateReadLock
    · simp [hs] at h
      exact ⟨hg.1 hs, h.symm⟩
    · simp only [hs, if_false] at h
      cases ctx with
      | none => simp at h
      | some c =>
        simp only at h
        split_ifs at h
        all_goals first
          | exact ih h
          | contradiction
          | (simp at h)

theorem rTryLock_succ_of_nonneg (fuel : Nat) (ctx : Option Ctx) (m : CasMutex)
    (h : 0 ≤ m.state) :
    rTryLock (fuel + 1) ctx m = .ret true { m with state := wrapInt32 (m.state + 1) } := by
  have hg := (getState_nonneg_iff m.state).2 h
  simp [rTryLock, compareAndSwapInt32, loadInt32, hg]

theorem release_after_take (m : CasMutex) :
    release { m with turnstile := m.turnstile + 1 } = m := by
  cases m; simp [release]

theorem acquire_ret (ctx : Ctx) (m m1 : CasMutex) (ok : Bool)
    (h : acquire ctx m = .ret ok m1) :
    (ok = false ∧ m1 = m) ∨ (ok = true ∧ m1 = { m with turnstile := m.turnstile + 1 }) := by
  simp only [acquire] at h
  split_ifs at h <;> injection h with h1 h2 <;> simp [← h1, ← h2]

theorem acquire_free (ctx : Ctx) (m : CasMutex) (hd : ctx.done = false)
    (hg : m.turnstile = 0) :
    acquire ctx m = .ret true { m with turnstile := m.turnstile + 1 } := by
  simp [acquire, hd, hg]

theorem acquire_background_ret (m m1 : CasMutex) (ok : Bool)
    (h : acquire .background m = .ret ok m1) :
    m1 = { m with turnstile := m.turnstile + 1 } := by
  simp only [acquire, Ctx.done, Ctx.expires] at h
  by_cases hg : m.turnstile + 1 ≤ 1
  · simp [hg] at h; exact h.2.symm
  · simp [hg] at h

/-- C7: whenever `TryLock`, `TryLockWithTimeout`, `RTryLock` or
`RTryLockWithTimeout` returns false, whatever the state, the turnstile count,
the loop budget and the deadline were, the lock afterwards is the lock before:
same state word, same number of permits taken, same broadcast channel. -/
theorem C7_failed_acquisition_changes_nothing (fuel : Nat) (elapsed : Bool) (m m1 : CasMutex) :
    (TryLock fuel m = .ret false m1 → m1 = m)
    ∧ (TryLockWithTimeout fuel elapsed m = .ret false m1 → m1 = m)
    ∧ (RTryLock fuel m = .ret false m1 → m1 = m)
    ∧ (RTryLockWithTimeout fuel elapsed m = .ret false m1 → m1 = m) := by
  refine ⟨?_, ?_, ?_, ?_⟩
  · intro h
    simp only [TryLock, tryAcquire] at h
    split_ifs at h with hg
    · simp only at h
      cases ht : tryLock fuel none { m with turnstile := m.turnstile + 1 } with
      | ret ok m2 =>
        rw [ht] at h
        injection h with h1 h2
        subst h1
        rw [tryLock_unchanged _ _ _ _ ht, release_after_take] at h2
        exact h2.symm
      | parked m2 => rw [ht] at h; simp at h
      | fuel => rw [ht] at h; simp at h
    · simp at h; exact h.symm
  · intro h
    simp only [TryLockWithTimeout] at h
    cases ha : acquire (.withTimeout elapsed) m with
    | ret ok m2 =>
      rw [ha] at h
      rcases acquire_ret _ _ _ _ ha with ⟨rfl, rfl⟩ | ⟨rfl, rfl⟩
      · simp at h; exact h.symm
      · simp only at h
        cases ht : tryLock fuel (some (.withTimeout elapsed))
            { m with turnstile := m.turnstile + 1 } with
        | ret ok m3 =>
          rw [ht] at h
          injection h with h1 h2
          subst h1
          rw [tryLock_unchanged _ _ _ _ ht, release_after_take] at h2
          exact h2.symm
        | parked m3 => rw [ht] at h; simp at h
        | fuel => rw [ht] at h; simp at h
    | parked m2 => rw [ha] at h; simp at h
    | fuel => rw [ha] at h; simp at h
  · intro h
    simp only [RTryLock, tryAcquire] at h
    split_ifs at h with hg
    · simp only [release_after_take] at h
      exact rTryLock_unchanged _ _ _ _ h
    · simp at h; exact h.symm
  · intro h
    simp only [RTryLockWithTimeout] at h
    cases ha : acquire (.withTimeout elapsed) m with
    | ret ok m2 =>
      rw [ha] at h
      rcases acquire_ret _ _ _ _ ha with ⟨rfl, rfl⟩ | ⟨rfl, rfl⟩
      · simp at h; exact h.symm
      · simp only [release_after_take] at h
        exact rTryLock_unchanged _ _ _ _ h
    | parked m2 => rw [ha] at h; simp at h
    | fuel => rw [ha] at h; simp at h

/-- C7 at concrete locks: each of the four calls does return false there (a
held permit, a write-locked state, a deadline that passes), and leaves the
lock as it was. -/
theorem C7_failed_acquisition_changes_nothing_witness :
    (TryLock 1 ⟨2, 0, 5⟩ = .ret false ⟨2, 0, 5⟩)
    ∧ (TryLockWithTimeout 1 false ⟨2, 0, 5⟩ = .ret false ⟨2, 0, 5⟩)
    ∧ (RTryLock 1 ⟨3, 1, 5⟩ = .ret false ⟨3, 1, 5⟩)
    ∧ (RTryLockWithTimeout 1 false ⟨-1, 0, 5⟩ = .ret false ⟨-1, 0, 5⟩) :=
  ⟨((C7_failed_acquisition_changes_nothing 1 false ⟨2, 0, 5⟩ ⟨2, 0, 5⟩).1 (by decide)) ▸ (by decide),
   ((C7_failed_acquisition_changes_nothing 1 false ⟨2, 0, 5⟩ ⟨2, 0, 5⟩).2.1 (by decide)) ▸ (by decide),
   ((C7_failed_acquisition_changes_nothing 1 false ⟨3, 1, 5⟩ ⟨3, 1, 5⟩).2.2.1 (by decide)) ▸ (by decide),
   ((C7_failed_acquisition_changes_nothing 1 false ⟨-1, 0, 5⟩ ⟨-1, 0, 5⟩).2.2.2 (by decide)) ▸ (by decide)⟩

theorem RTryLock_succ_of_free (fuel : Nat) (m : CasMutex) (hgate : m.turnstile = 0)
    (h0 : 0 ≤ m.state) (h1 : m.state < 2147483647) :
    RTryLock (fuel + 1) m = .ret true { m with state := m.state + 1 } := by
  have : m.turnstile + 1 ≤ 1 := by omega
  simp only [RTryLock, tryAcquire, this, if_true, release_after_take]
  rw [rTryLock_succ_of_nonneg _ _ _ h0, wrapInt32_of_range (by omega) (by omega)]

theorem rTryLockRepeat_all_true (fuel k : Nat) (s : Int) (g : Nat)
    (h0 : 0 ≤ s) (h1 : s + k ≤ 2147483647) :
    rTryLockRepeat (fuel + 1) k ⟨s, 0, g⟩ = some (List.replicate k true, ⟨s + k, 0, g⟩) := by
  induction k generalizing s with
  | zero => simp [rTryLockRepeat]
  | succ j ih =>
    have hs : s < 2147483647 := by push_cast at h1; omega
    rw [rTryLockRepeat, RTryLock_succ_of_free fuel ⟨s, 0, g⟩ rfl h0 hs]
    simp only
    rw [ih (s + 1) (by omega) (by push_cast at h1; omega)]
    simp only [Option.map_some', List.replicate_succ]
    congr 3
    push_cast; ring

theorem soloRTryLock_run (c : Conf) (t : Nat) (last : Option Bool)
    (hpc : c.pc t = .idle last) (hgate : c.m.turnstile = 0) (h0 : 0 ≤ c.m.state) :
    ∃ c1, run (soloRTryLock t) c = some c1
      ∧ c1.pc t = .idle (some true)
      ∧ c1.m = { c.m with state := wrapInt32 (c.m.state + 1) }
      ∧ c1.readers = t :: c.readers ∧ c1.writers = c.writers
      ∧ ∀ u, u ≠ t → c1.pc u = c.pc u := by
  have hg := (getState_nonneg_iff c.m.state).2 h0
  have e1 : next t (.call .rTryLock) c = some (c.goto t (.rGate none)) := by
    simp [next, hpc]
  have e2 : next t .step (c.goto t (.rGate none))
      = some ((c.goto t (.rGate none)).set t (.rRelease none) { c.m with turnstile := 1 }) := by
    simp [next, Conf.goto, tryAcquire, hgate]
  have e3 : next t .step ((c.goto t (.rGate none)).set t (.rRelease none)
        { c.m with turnstile := 1 })
      = some ((c.goto t (.rGate none)).set t (.rListen none) c.m) := by
    simp only [next, Conf.goto, Conf.set, Function.update_same, release, Function.update_idem]
    congr 2
    cases hc : c.m
    simp [hc] at hgate ⊢
    exact hgate.symm
  have e4 : next t .step ((c.goto t (.rGate none)).set t (.rListen none) c.m)
      = some (((c.goto t (.rGate none)).set t (.rListen none) c.m).goto t
          (.rLoad none c.m.broadcastChan)) := by
    simp [next, Conf.goto, Conf.set, listen]
  have e5 : next t .step (((c.goto t (.rGate none)).set t (.rListen none) c.m).goto t
        (.rLoad none c.m.broadcastChan))
      = some (((c.goto t (.rGate none)).set t (.rListen none) c.m).goto t
          (.rCas none c.m.broadcastChan c.m.state)) := by
    simp [next, Conf.goto, Conf.set, loadInt32, hg]
  have e6 : next t .step (((c.goto t (.rGate none)).set t (.rListen none) c.m).goto t
        (.rCas none c.m.broadcastChan c.m.state))
      = some { m := { c.m with state := wrapInt32 (c.m.state + 1) },
               pc := Function.update c.pc t (.idle (some true)),
               writers := c.writers, readers := t :: c.readers } := by
    simp [next, Conf.goto, Conf.set, compareAndSwapInt32, retVal]
  refine ⟨{ m := { c.m with state := wrapInt32 (c.m.state + 1) },
             pc := Function.update c.pc t (.idle (some true)),
             writers := c.writers, readers := t :: c.readers }, ?_, ?_, rfl, rfl, rfl, ?_⟩
  · simp only [soloRTryLock, run, e1, e2, e3, e4, e5, e6]
  · simp
  · intro u hu
    simp [Function.update, hu]

/-- C8, as stated, fails in two ways.  While the turnstile permit is taken (a
writer is in the middle of `Lock`), `RTryLock` on a lock held by two readers
returns false and the number of read holds stays 2: this is the call
`TestCASNoStarve` expects to fail.  And with the permit free and only readers
holding, `RTryLock` still returns false when another reader acquires between
its atomic load and its single `CAS`: in `readerRaceSchedule` task 1 ends with
the result false while readers 0 and 2 hold the lock and nobody writes. -/
theorem C8_counterexample_gate_or_race :
    ((1 : Int) ≤ (CasMutex.mk 2 1 0).state
      ∧ RTryLock 1 ⟨2, 1, 0⟩ = .ret false ⟨2, 1, 0⟩)
    ∧ (run readerRaceSchedule Conf.init).map (fun c => (c.pc 1, c.m, c.writers, c.readers))
        = some (.idle (some false), ⟨2, 0, 0⟩, [], [2, 0]) := by
  refine ⟨by decide, by decide⟩

/-- C8, amended: on a lock held only by readers (state `n`, `1 <= n`) whose
turnstile permit is free, with `n < 2147483647`, and on which no other task
steps during the call, `RTryLock` returns true and the number of read holds
becomes `n + 1`.  This holds for the call-level function, and in the
interleaving semantics for the six steps of the call run back to back from any
configuration with that lock: the caller ends with the result true and is
entered as a reader.  Starting from a fresh lock, for every `k <= 2147483647`
the first `k` consecutive `RTryLock` calls of one task, nobody else stepping,
all return true and leave the state at `k`. -/
theorem C8_RTryLock_shared (fuel : Nat) (m : CasMutex) (k : Nat)
    (hgate : m.turnstile = 0) (h1 : 1 ≤ m.state) (h2 : m.state < 2147483647)
    (hk : k ≤ 2147483647) :
    RTryLock (fuel + 1) m = .ret true { m with state := m.state + 1 }
      ∧ rTryLockRepeat (fuel + 1) k NewCASMutex
          = some (List.replicate k true, { NewCASMutex with state := k })
      ∧ (∀ (c : Conf) (t : Nat) (last : Option Bool), c.m = m → c.pc t = .idle last →
          ∃ c1, run (soloRTryLock t) c = some c1
            ∧ c1.pc t = .idle (some true)
            ∧ c1.m = { m with state := m.state + 1 }
            ∧ c1.readers = t :: c.readers ∧ c1.writers = c.writers
            ∧ ∀ u, u ≠ t → c1.pc u = c.pc u) := by
  refine ⟨RTryLock_succ_of_free fuel m hgate (by omega) h2, ?_, ?_⟩
  · have := rTryLockRepeat_all_true fuel k 0 0 (le_refl 0) (by omega)
    simpa [NewCASMutex, casStateNoLock] using this
  · intro c t last hm hpc
    subst hm
    obtain ⟨c1, hr, hp, hm1, hrd, hwr, hoth⟩ :=
      soloRTryLock_run c t last hpc hgate (by omega)
    rw [wrapInt32_of_range (by omega) (by omega)] at hm1
    exact ⟨c1, hr, hp, hm1, hrd, hwr, hoth⟩

/-- C8 amended, at a lock held by two readers, for three calls in a row on a
fresh lock, and for the six steps of task 5 from a configuration in which
tasks 0 and 1 hold the read lock. -/
theorem C8_RTryLock_shared_witness :
    RTryLock 1 ⟨2, 0, 0⟩ = .ret true ⟨3, 0, 0⟩
      ∧ rTryLockRepeat 1 3 NewCASMutex = some ([true, true, true], ⟨3, 0, 0⟩)
      ∧ ∃ c1, run (soloRTryLock 5) ⟨⟨2, 0, 0⟩, fun _ => .idle none, [], [0, 1]⟩ = some c1
          ∧ c1.pc 5 = .idle (some true) ∧ c1.m = ⟨3, 0, 0⟩ ∧ c1.readers = [5, 0, 1] := by
  have key := C8_RTryLock_shared 0 ⟨2, 0, 0⟩ 3 rfl (by decide) (by decide) (by decide)
  refine ⟨key.1, key.2.1, ?_⟩
  obtain ⟨c1, hr, hp, hm, hrd, -, -⟩ :=
    key.2.2 ⟨⟨2, 0, 0⟩, fun _ => .idle none, [], [0, 1]⟩ 5 none rfl rfl
  exact ⟨c1, hr, hp, hm, hrd⟩

/-- C9, as stated, fails at the largest `int32`: from state 2147483647 a
successful `RLock` leaves the state at -2147483648, which is negative and
which `getState` classifies as `Undefined`, not `ReadLock`. -/
theorem C9_counterexample_wraps :
    RLock 1 ⟨2147483647, 0, 0⟩ = .ret () ⟨-2147483648, 0, 0⟩
      ∧ getState (-2147483648) = casStateUndefined
      ∧ getState (-2147483648) ≠ casStateReadLock
      ∧ (-2147483648 : Int) ≠ 2147483647 + 1 := by
  decide

/-- C9, amended: for every state `n` with `0 <= n < 2147483647`, whenever
`RLock`, `RTryLock` or `RTryLockWithTimeout` succeeds the state afterwards is
`n + 1` (and with the permit free and the deadline not passed they do
succeed); `getState` classifies `n + 1` as `ReadLock`; and `RUnlock` on the
result does not panic and puts the state back to exactly `n`. -/
theorem C9_read_count_steps_by_one (fuel : Nat) (elapsed : Bool) (m : CasMutex)
    (h0 : 0 ≤ m.state) (h1 : m.state < 2147483647) :
    (∀ m1, RLock fuel m = .ret () m1 → m1 = { m with state := m.state + 1 })
    ∧ (∀ m1, RTryLock fuel m = .ret true m1 → m1 = { m with state := m.state + 1 })
    ∧ (∀ m1, RTryLockWithTimeout fuel elapsed m = .ret true m1 →
        m1 = { m with state := m.state + 1 })
    ∧ (m.turnstile = 0 →
        RLock (fuel + 1) m = .ret () { m with state := m.state + 1 }
          ∧ RTryLock (fuel + 1) m = .ret true { m with state := m.state + 1 }
          ∧ RTryLockWithTimeout (fuel + 1) false m = .ret true { m with state := m.state + 1 })
    ∧ getState (m.state + 1) = casStateReadLock
    ∧ RUnlock { m with state := m.state + 1 }
        = (none, if m.state = 0 then broadcast m else m) := by
  have hw : wrapInt32 (m.state + 1) = m.state + 1 := wrapInt32_of_range (by omega) (by omega)
  refine ⟨?_, ?_, ?_, ?_, ?_, ?_⟩
  · intro m1 h
    simp only [RLock] at h
    cases ha : acquire .background m with
    | ret ok m2 =>
      rw [ha] at h
      simp only at h
      cases hr : rTryLock fuel (some .background) (release m2) with
      | ret ok2 m3 =>
        rw [hr] at h
        injection h with _ h2
        subst h2
        have hm2 := acquire_background_ret _ _ _ ha
        subst hm2
        · rw [release_after_take] at hr
          cases ok2 with
          | true => rw [(rTryLock_ret_true _ _ _ _ hr).2, hw]
          | false =>
            have := rTryLock_unchanged _ _ _ _ hr
            subst this
            cases fuel with
            | zero => simp [rTryLock] at hr
            | succ j => rw [rTryLock_succ_of_nonneg _ _ _ h0] at hr; simp at hr
      | parked m3 => rw [hr] at h; simp at h
      | fuel => rw [hr] at h; simp at h
    | parked m2 => rw [ha] at h; simp at h
    | fuel => rw [ha] at h; simp at h
  · intro m1 h
    simp only [RTryLock, tryAcquire] at h
    split_ifs at h with hg
    · simp only [release_after_take] at h
      rw [(rTryLock_ret_true _ _ _ _ h).2, hw]
    · simp at h
  · intro m1 h
    simp only [RTryLockWithTimeout] at h
    cases ha : acquire (.withTimeout elapsed) m with
    | ret ok m2 =>
      rw [ha] at h
      rcases acquire_ret _ _ _ _ ha with ⟨rfl, rfl⟩ | ⟨rfl, rfl⟩
      · simp at h
      · simp only [release_after_take] at h
        rw [(rTryLock_ret_true _ _ _ _ h).2, hw]
    | parked m2 => rw [ha] at h; simp at h
    | fuel => rw [ha] at h; simp at h
  · intro hg
    refine ⟨?_, RTryLock_succ_of_free fuel m hg h0 h1, ?_⟩
    · simp only [RLock, acquire_free .background m rfl hg]
      rw [release_after_take, rTryLock_succ_of_nonneg _ _ _ h0, hw]
    · simp only [RTryLockWithTimeout, acquire_free (.withTimeout false) m rfl hg]
      rw [release_after_take, rTryLock_succ_of_nonneg _ _ _ h0, hw]
  · simp only [getState, casStateWriteLock, casStateNoLock, casStateReadLock]
    have a1 : ¬ (m.state + 1 = -1) := by omega
    have a2 : ¬ (m.state + 1 = 0) := by omega
    have a3 : m.state + 1 ≥ 1 := by omega
    simp [a1, a2, a3]
  · have hb : wrapInt32 (m.state + 1 + -1) = m.state := by
      rw [show m.state + 1 + -1 = m.state by ring]
      exact wrapInt32_of_range (by omega) (by omega)
    simp only [RUnlock, addInt32, hb, getState, casStateWriteLock, casStateNoLock,
      casStateReadLock, casStateUndefined, broadcast]
    by_cases hz : m.state = 0
    · cases m; simp_all
    · have a1 : ¬ (m.state = -1) := by omega
      have a3 : m.state ≥ 1 := by omega
      cases m; simp_all

/-- C9 amended, at a lock held by two readers. -/
theorem C9_read_count_steps_by_one_witness :
    RLock 1 ⟨2, 0, 0⟩ = .ret () ⟨3, 0, 0⟩
      ∧ getState 3 = casStateReadLock
      ∧ RUnlock ⟨3, 0, 0⟩ = (none, ⟨2, 0, 0⟩) :=
  ⟨((C9_read_count_steps_by_one 0 false ⟨2, 0, 0⟩ (by decide) (by decide)).2.2.2.1 rfl).1,
   (C9_read_count_steps_by_one 0 false ⟨2, 0, 0⟩ (by decide) (by decide)).2.2.2.2.1,
   (C9_read_count_steps_by_one 0 false ⟨2, 0, 0⟩ (by decide) (by decide)).2.2.2.2.2⟩

/-! ## Interleaving semantics: step lemmas -/

theorem cas_true_iff (m m1 : CasMutex) (old new : Int) :
    compareAndSwapInt32 m old new = (true, m1) ↔ m.state = old ∧ m1 = { m with state := new } := by
  unfold compareAndSwapInt32
  split_ifs with h <;> simp [h, eq_comm]

theorem cas_false_iff (m m1 : CasMutex) (old new : Int) :
    compareAndSwapInt32 m old new = (false, m1) ↔ m.state ≠ old ∧ m1 = m := by
  unfold compareAndSwapInt32
  split_ifs with h <;> simp [h, eq_comm]

theorem tryAcquire_true_iff (m m1 : CasMutex) :
    tryAcquire m = (true, m1) ↔ m.turnstile = 0 ∧ m1 = { m with turnstile := 1 } := by
  unfold tryAcquire
  by_cases h : m.turnstile = 0
  · simp [h, eq_comm]
  · have : ¬ (m.turnstile + 1 ≤ 1) := by omega
    simp [h, this]

theorem tryAcquire_false_iff (m m1 : CasMutex) :
    tryAcquire m = (false, m1) ↔ m.turnstile ≠ 0 ∧ m1 = m := by
  unfold tryAcquire
  by_cases h : m.turnstile = 0
  · simp [h]
  · have : ¬ (m.turnstile + 1 ≤ 1) := by omega
    simp [h, this, eq_comm]

theorem next_pc_other {c c1 : Conf} {t : Nat} {a : Act} (h : next t a c = some c1)
    (u : Nat) (hne : u ≠ t) : c1.pc u = c.pc u := by
  unfold next at h
  split at h
  all_goals (try split at h)
  all_goals (try split at h)
  all_goals (try simp only [Option.some.injEq, reduceCtorEq] at h)
  all_goals (try subst h)
  all_goals (try simp [Conf.goto, Conf.set, Function.update, hne])

theorem next_holders {c c1 : Conf} {t : Nat} {a : Act} (h : next t a c = some c1) :
    (c1.writers = c.writers ∧ c1.readers = c.readers ∧ c1.m.state = c.m.state)
    ∨ ((∃ ctx b, c.pc t = .wCas ctx b) ∧ c.m.state = 0 ∧ c1.m.state = -1
        ∧ c1.writers = t :: c.writers ∧ c1.readers = c.readers)
    ∨ ((∃ ctx b, c.pc t = .rCas ctx b c.m.state) ∧ c1.m.state = wrapInt32 (c.m.state + 1)
        ∧ c1.readers = t :: c.readers ∧ c1.writers = c.writers)
    ∨ (c.pc t = .uCas ∧ c.m.state = -1 ∧ c1.m.state = 0 ∧ c1.writers = c.writers.erase t
        ∧ c1.readers = c.readers)
    ∨ (c.pc t = .ruAdd ∧ c1.m.state = wrapInt32 (c.m.state + -1)
        ∧ c1.readers = c.readers.erase t ∧ c1.writers = c.writers) := by
  unfold next at h
  split at h
  all_goals (try split at h)
  all_goals (try split at h)
  all_goals (try simp only [Option.some.injEq, reduceCtorEq] at h)
  all_goals (try subst h)
  all_goals (try simp_all [Conf.goto, Conf.set, cas_true_iff, cas_false_iff,
    tryAcquire_true_iff, tryAcquire_false_iff, release,
    broadcast, addInt32, casStateNoLock, casStateWriteLock])

theorem next_pc_self {c c1 : Conf} {t : Nat} {a : Act} (h : next t a c = some c1) :
    (c1.pc t = .uCas → t ∈ c.writers ∧ c1.writers = c.writers)
    ∧ (c1.pc t = .ruAdd → t ∈ c.readers ∧ c1.readers = c.readers)
    ∧ (∀ ctx b n, c1.pc t = .rCas ctx b n → 0 ≤ n) := by
  unfold next at h
  split at h
  all_goals (try split at h)
  all_goals (try split at h)
  all_goals (try simp only [Option.some.injEq, reduceCtorEq] at h)
  all_goals (try subst h)
  all_goals (try simp_all [Conf.goto, Conf.set, loadInt32])
  exact (getState_nonneg_iff _).1 ‹_›

theorem Inv_init : Conf.init.Inv := by
  refine ⟨Or.inl ⟨rfl, by simp [Conf.init], ?_⟩, ?_, ?_, ?_⟩
  · simp [Conf.init, NewCASMutex, casStateNoLock, wrapInt32]
  all_goals simp [Conf.init]

theorem exclusive_step {c c1 : Conf} {t : Nat} {a : Act} (hi : c.Inv)
    (h : next t a c = some c1) : c1.exclusive := by
  obtain ⟨he, hu, hr, hs⟩ := hi
  rcases next_holders h with ⟨hw, hrd, hst⟩ | ⟨-, h0, h1, hw, hrd⟩ | ⟨⟨ctx, b, hpc⟩, h1, hrd, hw⟩
    | ⟨hpc, h0, h1, hw, hrd⟩ | ⟨hpc, h1, hrd, hw⟩
  · unfold Conf.exclusive at he ⊢
    rw [hw, hrd, hst]; exact he
  · rcases he with ⟨ew, el, es⟩ | ⟨w, ew, er, es⟩
    · right
      refine ⟨t, by rw [hw, ew], ?_, by rw [h1]; rfl⟩
      rw [hrd]
      rw [h0] at es
      unfold wrapInt32 at es
      have : c.readers.length = 0 := by omega
      exact List.length_eq_zero.mp this
    · rw [es] at h0; simp [casStateWriteLock] at h0
  · have hn := hs t ctx b _ hpc
    rcases he with ⟨ew, el, es⟩ | ⟨w, ew, er, es⟩
    · left
      have hlen : c.m.state = c.readers.length := by
        unfold wrapInt32 at es; omega
      refine ⟨by rw [hw, ew], ?_, ?_⟩
      · rw [hrd]; simp only [List.length_cons]; push_cast
        unfold wrapInt32 at es; omega
      · rw [h1, hrd, hlen]; simp only [List.length_cons]; push_cast; rfl
    · rw [es] at hn; simp [casStateWriteLock] at hn
  · have hmem := hu t hpc
    rcases he with ⟨ew, el, es⟩ | ⟨w, ew, er, es⟩
    · rw [ew] at hmem; simp at hmem
    · left
      rw [ew] at hmem
      have : t = w := by simpa using hmem
      subst this
      refine ⟨by rw [hw, ew]; simp, by rw [hrd, er]; simp, ?_⟩
      rw [h1, hrd, er]; simp [wrapInt32]
  · have hmem := hr t hpc
    rcases he with ⟨ew, el, es⟩ | ⟨w, ew, er, es⟩
    · left
      have hpos : 0 < c.readers.length := List.length_pos_of_mem hmem
      have hlen : (c.readers.erase t).length = c.readers.length - 1 :=
        List.length_erase_of_mem hmem
      refine ⟨by rw [hw, ew], ?_, ?_⟩
      · rw [hrd, hlen]; omega
      · rw [h1, hrd, hlen, es]
        unfold wrapInt32
        omega
    · rw [er] at hmem; simp at hmem

theorem Inv_step {c c1 : Conf} (t : Nat) (a : Act) (hi : c.Inv) (h : next t a c = some c1) :
    c1.Inv := by
  have hx := exclusive_step hi h
  obtain ⟨he, hu, hr, hs⟩ := hi
  have hself := next_pc_self h
  refine ⟨hx, ?_, ?_, ?_⟩
  · intro u hpc
    by_cases hut : u = t
    · subst hut
      have := hself.1 hpc
      rw [this.2]; exact this.1
    · rw [next_pc_other h u hut] at hpc
      have hmem := hu u hpc
      rcases next_holders h with ⟨hw, -, -⟩ | ⟨-, -, -, hw, -⟩ | ⟨-, -, -, hw⟩
        | ⟨-, -, -, hw, -⟩ | ⟨-, -, -, hw⟩
      · rw [hw]; exact hmem
      · rw [hw]; exact List.mem_cons_of_mem _ hmem
      · rw [hw]; exact hmem
      · rw [hw]; exact (List.mem_erase_of_ne hut).2 hmem
      · rw [hw]; exact hmem
  · intro u hpc
    by_cases hut : u = t
    · subst hut
      have := hself.2.1 hpc
      rw [this.2]; exact this.1
    · rw [next_pc_other h u hut] at hpc
      have hmem := hr u hpc
      rcases next_holders h with ⟨-, hrd, -⟩ | ⟨-, -, -, -, hrd⟩ | ⟨-, -, hrd, -⟩
        | ⟨-, -, -, -, hrd⟩ | ⟨-, -, hrd, -⟩
      · rw [hrd]; exact hmem
      · rw [hrd]; exact hmem
      · rw [hrd]; exact List.mem_cons_of_mem _ hmem
      · rw [hrd]; exact hmem
      · rw [hrd]; exact (List.mem_erase_of_ne hut).2 hmem
  · intro u ctx b n hpc
    by_cases hut : u = t
    · subst hut
      exact hself.2.2 ctx b n hpc
    · rw [next_pc_other h u hut] at hpc
      exact hs u ctx b n hpc

theorem Inv_of_reachable {c : Conf} (h : Reachable c) : c.Inv := by
  induction h with
  | init => exact Inv_init
  | step t a _ hn ih => exact Inv_step t a ih hn

theorem reachable_run {c c1 : Conf} (l : List (Nat × Act)) (hc : Reachable c)
    (h : run l c = some c1) : Reachable c1 := by
  induction l generalizing c with
  | nil => simp [run] at h; rw [← h]; exact hc
  | cons x rest ih =>
    obtain ⟨t, a⟩ := x
    simp only [run] at h
    cases hn : next t a c with
    | none => rw [hn] at h; simp at h
    | some c2 =>
      rw [hn] at h
      exact ih (Reachable.step t a hc hn) h

theorem next_gate {c c1 : Conf} {t : Nat} {a : Act} (h : next t a c = some c1) :
    (c1.m.turnstile = c.m.turnstile ∧ (c1.pc t).holdsPermit = (c.pc t).holdsPermit)
    ∨ (c.m.turnstile = 0 ∧ c1.m.turnstile = 1 ∧ (c.pc t).atGate = true
        ∧ (c1.pc t).holdsPermit = true)
    ∨ ((c.pc t).holdsPermit = true ∧ (c1.pc t).holdsPermit = false
        ∧ c1.m.turnstile = c.m.turnstile - 1) := by
  unfold next at h
  split at h
  all_goals (try split at h)
  all_goals (try split at h)
  all_goals (try simp only [Option.some.injEq, reduceCtorEq] at h)
  all_goals (try subst h)
  all_goals (try simp_all [Conf.goto, Conf.set, cas_true_iff, cas_false_iff,
    tryAcquire_true_iff, tryAcquire_false_iff, release, broadcast, addInt32,
    Pc.holdsPermit, Pc.atGate])

theorem gateOk_init : Conf.init.gateOk := by
  left; simp [Conf.init, NewCASMutex, Pc.holdsPermit]

theorem gateOk_step {c c1 : Conf} (t : Nat) (a : Act) (hg : c.gateOk)
    (h : next t a c = some c1) : c1.gateOk := by
  have hother := next_pc_other h
  rcases next_gate h with ⟨ht, hp⟩ | ⟨h0, h1, -, hp⟩ | ⟨hp, hp1, ht⟩
  · rcases hg with ⟨g0, gall⟩ | ⟨g1, w, gw, guniq⟩
    · left
      refine ⟨by rw [ht, g0], fun u => ?_⟩
      by_cases hut : u = t
      · subst hut; rw [hp]; exact gall u
      · rw [hother u hut]; exact gall u
    · right
      refine ⟨by rw [ht, g1], w, ?_, fun u hu => ?_⟩
      · by_cases hwt : w = t
        · subst hwt; rw [hp]; exact gw
        · rw [hother w hwt]; exact gw
      · by_cases hut : u = t
        · subst hut; rw [hp] at hu; exact guniq u hu
        · rw [hother u hut] at hu; exact guniq u hu
  · rcases hg with ⟨g0, gall⟩ | ⟨g1, w, gw, guniq⟩
    · right
      refine ⟨h1, t, hp, fun u hu => ?_⟩
      by_contra hut
      rw [hother u hut, gall u] at hu
      exact Bool.false_ne_true hu
    · omega
  · rcases hg with ⟨g0, gall⟩ | ⟨g1, w, gw, guniq⟩
    · rw [gall t] at hp; exact absurd hp Bool.false_ne_true
    · left
      have htw : t = w := guniq t hp
      refine ⟨by rw [ht, g1], fun u => ?_⟩
      by_cases hut : u = t
      · subst hut; exact hp1
      · rw [hother u hut]
        by_contra hu
        have := guniq u (by simpa using hu)
        exact hut (this.trans htw.symm)

theorem gateOk_of_reachable {c : Conf} (h : Reachable c) : c.gateOk := by
  induction h with
  | init => exact gateOk_init
  | step t a _ hn ih => exact gateOk_step t a ih hn

/-- While `w` holds the permit, the permit count is 1 and no other task holds
it. -/
theorem gate_taken {c : Conf} (hg : c.gateOk) {w : Nat} (hw : (c.pc w).holdsPermit = true) :
    c.m.turnstile = 1 ∧ ∀ t, t ≠ w → (c.pc t).holdsPermit = false := by
  rcases hg with ⟨-, gall⟩ | ⟨g1, v, -, guniq⟩
  · rw [gall w] at hw; exact absurd hw Bool.false_ne_true
  · refine ⟨g1, fun t ht => ?_⟩
    by_contra hu
    have h1 := guniq t (by simpa using hu)
    have h2 := guniq w hw
    exact ht (h1.trans h2.symm)

/-- C1: in every configuration reachable from `NewCASMutex()` with all tasks
idle, by atomic steps in which `Unlock` / `RUnlock` are only entered by
holders, at most one task holds the write lock, and if a task holds the write
lock then no task holds a read lock (and the state word is `WriteLock`). -/
theorem C1_mutual_exclusion (c : Conf) (h : Reachable c) :
    c.writers.length ≤ 1
      ∧ (c.writers ≠ [] → c.readers = [])
      ∧ (∀ t u, t ∈ c.writers → u ∈ c.writers → t = u)
      ∧ (∀ t u, t ∈ c.writers → u ∉ c.readers)
      ∧ (c.writers ≠ [] → c.m.state = casStateWriteLock) := by
  rcases (Inv_of_reachable h).excl with ⟨ew, -, -⟩ | ⟨w, ew, er, es⟩
  · simp [ew]
  · simp [ew, er, es]

/-- C1 at a reachable configuration in which task 0 holds the write lock
while reader 1 is parked. -/
theorem C1_mutual_exclusion_witness :
    ∃ c, run (lateWakeSchedule.take 11) Conf.init = some c
      ∧ c.writers = [0] ∧ c.readers = []
      ∧ c.writers.length ≤ 1 ∧ (c.writers ≠ [] → c.readers = []) := by
  have hw : (run (lateWakeSchedule.take 11) Conf.init).map (fun c => (c.writers, c.readers))
      = some ([0], []) := by decide
  cases h : run (lateWakeSchedule.take 11) Conf.init with
  | none => rw [h] at hw; simp at hw
  | some c =>
    rw [h] at hw
    simp only [Option.map_some', Option.some.injEq, Prod.mk.injEq] at hw
    have := C1_mutual_exclusion c (reachable_run _ Reachable.init h)
    exact ⟨c, rfl, hw.1, hw.2, this.1, this.2.1⟩

theorem run_append (l1 l2 : List (Nat × Act)) (c : Conf) :
    run (l1 ++ l2) c = (run l1 c).bind (run l2) := by
  induction l1 generalizing c with
  | nil => simp [run]
  | cons x rest ih =>
    obtain ⟨t, a⟩ := x
    simp only [List.cons_append, run]
    cases next t a c with
    | none => simp
    | some c2 => exact ih c2

theorem next_at_gate_taken {c c1 : Conf} {t : Nat} {a : Act} (h : next t a c = some c1)
    (hg : (c.pc t).atGate = true) (ht : c.m.turnstile = 1) :
    c1.pc t = .idle (some false) ∧ c1.m = c.m ∧ c1.writers = c.writers
      ∧ c1.readers = c.readers := by
  unfold next at h
  split at h
  all_goals (try split at h)
  all_goals (try split at h)
  all_goals (try simp only [Option.some.injEq, reduceCtorEq] at h)
  all_goals (try subst h)
  all_goals (try simp_all [Conf.goto, Conf.set, tryAcquire_true_iff, tryAcquire_false_iff,
    Pc.atGate])

theorem next_try_at_gate_taken {c : Conf} {t : Nat}
    (hg : c.pc t = .wGate none ∨ c.pc t = .rGate none) (ht : c.m.turnstile = 1) :
    ∃ c1, next t .step c = some c1 ∧ c1.pc t = .idle (some false) ∧ c1.m = c.m
      ∧ c1.writers = c.writers ∧ c1.readers = c.readers := by
  have hf : tryAcquire c.m = (false, c.m) := by
    rw [tryAcquire_false_iff]; exact ⟨by omega, rfl⟩
  rcases hg with hg | hg
  · refine ⟨c.set t (.idle (some false)) c.m, ?_, ?_, rfl, rfl, rfl⟩
    · unfold next; rw [hg]; simp only [hf]
    · simp [Conf.set]
  · refine ⟨c.set t (.idle (some false)) c.m, ?_, ?_, rfl, rfl, rfl⟩
    · unfold next; rw [hg]; simp only [hf]
    · simp [Conf.set]

theorem next_enter_loop {c c1 : Conf} {t : Nat} {a : Act} (h : next t a c = some c1)
    (hl : (c1.pc t).readerPastGate = true) :
    (c.pc t).readerPastGate = true ∨ (c.pc t).holdsPermit = true := by
  unfold next at h
  split at h
  all_goals (try split at h)
  all_goals (try split at h)
  all_goals (try simp only [Option.some.injEq, reduceCtorEq] at h)
  all_goals (try subst h)
  all_goals (try simp_all [Conf.goto, Conf.set, Pc.readerPastGate, Pc.holdsPermit])

theorem next_state_change {c c1 : Conf} {t : Nat} {a : Act} (h : next t a c = some c1)
    (hs : c1.m.state ≠ c.m.state) :
    ((∃ ctx b, c.pc t = .wCas ctx b) ∧ c.m.state = casStateNoLock
        ∧ c1.m.state = casStateWriteLock ∧ t ∈ c1.writers)
      ∨ (∃ ctx b, c.pc t = .rCas ctx b c.m.state) ∨ c.pc t = .uCas ∨ c.pc t = .ruAdd := by
  rcases next_holders h with ⟨-, -, hst⟩ | ⟨hpc, h0, h1, hw, -⟩ | ⟨hpc, -⟩
    | ⟨hpc, -⟩ | ⟨hpc, -⟩
  · exact absurd hst hs
  · exact Or.inl ⟨hpc, h0, h1, by rw [hw]; exact List.mem_cons_self _ _⟩
  · exact Or.inr (Or.inl hpc)
  · exact Or.inr (Or.inr (Or.inl hpc))
  · exact Or.inr (Or.inr (Or.inr hpc))

theorem writerInside_holdsPermit {p : Pc} (h : p.writerInside = true) :
    p.holdsPermit = true := by
  cases p <;> simp_all [Pc.writerInside, Pc.holdsPermit]

/-- C6, as stated, fails: in the configuration that `lateWakeSchedule` reaches,
writer 2 is inside `Lock`, parked with the permit, and the lock is free; the
next step of reader 1, which passed the turnstile before writer 2 took it, is
a successful acquisition `CAS` that changes the state from 0 to 1.  This state
change is neither a release nor the `CAS` of the permit holder. -/
theorem C6_counterexample_reader_past_gate :
    (run lateWakeSchedule Conf.init).map (fun c => (c.pc 2, c.m, c.pc 1, c.readers))
      = some (.wSelect .background 0, ⟨0, 1, 1⟩, .rCas (some .background) 1 0, [])
    ∧ (run (lateWakeSchedule ++ [(1, .step)]) Conf.init).map
        (fun c => (c.pc 2, c.m, c.pc 1, c.readers))
      = some (.wSelect .background 0, ⟨1, 1, 1⟩, .idle none, [1]) := by
  constructor <;> decide

/-- C6, amended: while a writer `w` is inside an acquisition attempt, holding
the permit, the permit count is 1; `TryLock` and `RTryLock` by another task
return false at once; no other task at the turnstile passes it (whatever it
does there it comes back with false and changes nothing); no other task comes
to hold the permit or enters the loop of `rTryLock`; and the only steps that
change the state word are the release operations, the `CAS` of `w` itself from
`NoLock` to `WriteLock`, and the incrementing `CAS` of a reader that was past
the turnstile already. -/
theorem C6_gate_blocks_later_arrivals (c : Conf) (w : Nat) (hc : Reachable c)
    (hw : (c.pc w).writerInside = true) :
    c.m.turnstile = 1
    ∧ (∀ t, t ≠ w → (c.pc t = .wGate none ∨ c.pc t = .rGate none) →
        ∃ c1, next t .step c = some c1 ∧ c1.pc t = .idle (some false) ∧ c1.m = c.m
          ∧ c1.writers = c.writers ∧ c1.readers = c.readers)
    ∧ (∀ t a c1, t ≠ w → (c.pc t).atGate = true → next t a c = some c1 →
        c1.pc t = .idle (some false) ∧ c1.m = c.m ∧ c1.writers = c.writers
          ∧ c1.readers = c.readers)
    ∧ (∀ t a c1, t ≠ w → next t a c = some c1 →
        (c1.pc t).holdsPermit = false
          ∧ ((c1.pc t).readerPastGate = true → (c.pc t).readerPastGate = true))
    ∧ (∀ t a c1, t ≠ w → next t a c = some c1 → c1.m.state ≠ c.m.state →
        c.pc t = .uCas ∨ c.pc t = .ruAdd ∨ ∃ ctx b, c.pc t = .rCas ctx b c.m.state)
    ∧ (∀ a c1, next w a c = some c1 → c1.m.state ≠ c.m.state →
        c.m.state = casStateNoLock ∧ c1.m.state = casStateWriteLock ∧ w ∈ c1.writers) := by
  have hp := writerInside_holdsPermit hw
  obtain ⟨ht, hothers⟩ := gate_taken (gateOk_of_reachable hc) hp
  refine ⟨ht, ?_, ?_, ?_, ?_, ?_⟩
  · intro t _ hg
    exact next_try_at_gate_taken hg ht
  · intro t a c1 _ hg hn
    exact next_at_gate_taken hn hg ht
  · intro t a c1 htw hn
    have hnp := hothers t htw
    constructor
    · rcases next_gate hn with ⟨-, e⟩ | ⟨h0, -⟩ | ⟨-, e, -⟩
      · rw [e]; exact hnp
      · omega
      · exact e
    · intro hl
      rcases next_enter_loop hn hl with h1 | h1
      · exact h1
      · rw [hnp] at h1; exact absurd h1 Bool.false_ne_true
  · intro t a c1 htw hn hs
    have hnp := hothers t htw
    rcases next_state_change hn hs with ⟨⟨ctx, b, hpc⟩, -⟩ | h2 | h3 | h4
    · rw [hpc] at hnp; simp [Pc.holdsPermit] at hnp
    · exact Or.inr (Or.inr h2)
    · exact Or.inl h3
    · exact Or.inr (Or.inl h4)
  · intro a c1 hn hs
    rcases next_state_change hn hs with ⟨-, h0, h1, hm⟩ | ⟨ctx, b, hpc⟩ | hpc | hpc
    · exact ⟨h0, h1, hm⟩
    all_goals (rw [hpc] at hw; simp [Pc.writerInside] at hw)

/-- C6 amended, at the configuration `lateWakeSchedule` reaches, with writer 2
inside `Lock`: the permit is taken, and the step of reader 1 that changes the
state starts at its `CAS`. -/
theorem C6_gate_blocks_later_arrivals_witness :
    ∃ c c1, run lateWakeSchedule Conf.init = some c ∧ next 1 .step c = some c1
      ∧ c.m.turnstile = 1
      ∧ (c.pc 1 = .uCas ∨ c.pc 1 = .ruAdd ∨ ∃ ctx b, c.pc 1 = .rCas ctx b c.m.state) := by
  have h0 : (run lateWakeSchedule Conf.init).map (fun c => (c.pc 2).writerInside)
      = some true := by decide
  have h1 : (run (lateWakeSchedule ++ [(1, .step)]) Conf.init).map (fun c => c.m.state)
      = some 1 := by decide
  have h2 : (run lateWakeSchedule Conf.init).map (fun c => c.m.state) = some 0 := by decide
  rw [run_append] at h1
  cases h : run lateWakeSchedule Conf.init with
  | none => rw [h] at h0; simp at h0
  | some c =>
    rw [h] at h0 h1 h2
    simp only [Option.map_some', Option.some.injEq, Option.some_bind, run] at h0 h1 h2
    cases hn : next 1 .step c with
    | none => rw [hn] at h1; simp at h1
    | some c1 =>
      rw [hn] at h1
      simp only [Option.map_some', Option.some.injEq] at h1
      have key := C6_gate_blocks_later_arrivals c 2 (reachable_run _ Reachable.init h) h0
      exact ⟨c, c1, rfl, hn, key.1,
        key.2.2.2.2.1 1 .step c1 (by decide) hn (by rw [h1, h2]; decide)⟩

theorem next_chan {c c1 : Conf} {t : Nat} {a : Act} (h : next t a c = some c1) :
    (c1.m.broadcastChan = c.m.broadcastChan ∧ (c.pc t).broadcasting = false)
    ∨ (c1.m.broadcastChan = c.m.broadcastChan + 1 ∧ (c.pc t).broadcasting = true
        ∧ (c1.pc t).broadcasting = false) := by
  unfold next at h
  split at h
  all_goals (try split at h)
  all_goals (try split at h)
  all_goals (try simp only [Option.some.injEq, reduceCtorEq] at h)
  all_goals (try subst h)
  all_goals (try simp_all [Conf.goto, Conf.set, cas_true_iff, cas_false_iff,
    tryAcquire_true_iff, tryAcquire_false_iff, release, broadcast, addInt32,
    Pc.broadcasting])

theorem next_broker {c c1 : Conf} {t : Nat} {a : Act} (h : next t a c = some c1) (b : Nat)
    (hb : (c1.pc t).broker = some b) :
    (c.pc t).broker = some b ∨ b = c.m.broadcastChan := by
  unfold next at h
  split at h
  all_goals (try split at h)
  all_goals (try split at h)
  all_goals (try simp only [Option.some.injEq, reduceCtorEq] at h)
  all_goals (try subst h)
  all_goals (try simp_all [Conf.goto, Conf.set, Pc.broker, listen])

theorem next_park {c c1 : Conf} {t : Nat} {a : Act} (h : next t a c = some c1) (ctx : Ctx)
    (b : Nat) (hp : c1.pc t = .wSelect ctx b) :
    c1.m = c.m ∧ c.m.state ≠ casStateNoLock := by
  unfold next at h
  split at h
  all_goals (try split at h)
  all_goals (try split at h)
  all_goals (try simp only [Option.some.injEq, reduceCtorEq] at h)
  all_goals (try subst h)
  all_goals (try simp_all [Conf.goto, Conf.set, cas_true_iff, cas_false_iff])

theorem state_range {c : Conf} (hi : c.Inv) :
    -2147483648 ≤ c.m.state ∧ c.m.state ≤ 2147483647 := by
  rcases hi.excl with ⟨-, -, es⟩ | ⟨w, -, -, es⟩
  · rw [es]; unfold wrapInt32; omega
  · rw [es]; simp [casStateWriteLock]

theorem next_state_zero {c c1 : Conf} {t : Nat} {a : Act} (hi : c.Inv)
    (h : next t a c = some c1) (h0 : c.m.state ≠ casStateNoLock)
    (h1 : c1.m.state = casStateNoLock) : (c1.pc t).broadcasting = true := by
  have hs := hi.snapshot t
  have hr := state_range hi
  unfold next at h
  split at h
  all_goals (try split at h)
  all_goals (try split at h)
  all_goals (try simp only [Option.some.injEq, reduceCtorEq] at h)
  all_goals (try subst h)
  all_goals (try simp_all [Conf.goto, Conf.set, cas_true_iff, cas_false_iff,
    tryAcquire_true_iff, tryAcquire_false_iff, release, broadcast, addInt32,
    Pc.broadcasting, casStateNoLock, casStateWriteLock])
  · unfold wrapInt32 at h1; omega
  all_goals simp_all [getState, casStateNoLock, casStateWriteLock, casStateReadLock,
    casStateUndefined]

theorem wakeOk_init : Conf.init.wakeOk := by
  constructor <;> simp [Conf.init, Pc.broker]

theorem wakeOk_step {c c1 : Conf} (t : Nat) (a : Act) (hi : c.Inv) (hk : c.wakeOk)
    (h : next t a c = some c1) : c1.wakeOk := by
  have hother := next_pc_other h
  have hmono : c.m.broadcastChan ≤ c1.m.broadcastChan := by
    rcases next_chan h with ⟨e, -⟩ | ⟨e, -⟩ <;> omega
  constructor
  · intro u b hb
    by_cases hut : u = t
    · subst hut
      rcases next_broker h b hb with h1 | h1
      · have := hk.old u b h1; omega
      · omega
    · rw [hother u hut] at hb
      have := hk.old u b hb; omega
  · intro u ctx b hpc
    by_cases hut : u = t
    · subst hut
      obtain ⟨hm, hs⟩ := next_park h ctx b hpc
      right; left; rw [hm]; exact hs
    · have hpc0 := hpc
      rw [hother u hut] at hpc0
      have hold := hk.old u b (by rw [hpc0]; rfl)
      rcases hk.parkedWriter u ctx b hpc0 with h1 | h1 | ⟨v, hv⟩
      · left; omega
      · by_cases hz : c1.m.state = casStateNoLock
        · right; right
          exact ⟨t, next_state_zero hi h h1 hz⟩
        · right; left; exact hz
      · by_cases hvt : v = t
        · subst hvt
          rcases next_chan h with ⟨-, e⟩ | ⟨e, -⟩
          · rw [hv] at e; exact absurd e (by simp)
          · left; omega
        · right; right
          exact ⟨v, by rw [hother v hvt]; exact hv⟩

theorem wakeOk_of_reachable {c : Conf} (h : Reachable c) : c.wakeOk := by
  induction h with
  | init => exact wakeOk_init
  | step t a hr hn ih => exact wakeOk_step t a (Inv_of_reachable hr) ih hn

theorem next_outside {c c1 : Conf} {t : Nat} {a : Act} (h : next t a c = some c1)
    (ho : (c.pc t).outside = true) (ht : c.m.turnstile = 1) :
    c1.m = c.m ∧ c1.writers = c.writers ∧ c1.readers = c.readers
      ∧ ((c1.pc t).outside = true ∨ (c1.pc t = .uCas ∧ t ∈ c.writers)
          ∨ (c1.pc t = .ruAdd ∧ t ∈ c.readers)) := by
  unfold next at h
  split at h
  all_goals (try split at h)
  all_goals (try split at h)
  all_goals (try simp only [Option.some.injEq, reduceCtorEq] at h)
  all_goals (try subst h)
  all_goals (try simp_all [Conf.goto, Conf.set, tryAcquire_true_iff, tryAcquire_false_iff,
    Pc.outside])

theorem lockWaiting_iff (p : Pc) :
    p.lockWaiting = true ↔
      p = .wListen (some .background) ∨ (∃ b, p = .wCas (some .background) b)
        ∨ (∃ b, p = .wSelect .background b) := by
  cases p with
  | wListen ctx => rcases ctx with _ | ⟨_ | _⟩ <;> simp [Pc.lockWaiting]
  | wCas ctx b => rcases ctx with _ | ⟨_ | _⟩ <;> simp [Pc.lockWaiting]
  | wSelect ctx b => cases ctx <;> simp [Pc.lockWaiting]
  | _ => simp [Pc.lockWaiting]

theorem next_lockWaiting {c c1 : Conf} {w : Nat} {a : Act} (h : next w a c = some c1)
    (hw : (c.pc w).lockWaiting = true) :
    ((c1.pc w).lockWaiting = true ∧ c1.m = c.m ∧ c1.writers = c.writers
        ∧ c1.readers = c.readers
        ∧ (c.m.state = casStateNoLock → (c1.pc w).rank < (c.pc w).rank))
    ∨ (c.m.state = casStateNoLock ∧ c1.m.state = casStateWriteLock
        ∧ c1.writers = w :: c.writers ∧ c1.readers = c.readers
        ∧ c1.pc w = .wRelease (some .background) true) := by
  rcases (lockWaiting_iff _).1 hw with hpc | ⟨b, hpc⟩ | ⟨b, hpc⟩
  · cases a <;> simp [next, hpc] at h
    subst h
    simp [Conf.goto, hpc, Pc.lockWaiting, Pc.rank]
  · cases a <;> simp [next, hpc] at h
    by_cases h0 : c.m.state = casStateNoLock
    · have hc : compareAndSwapInt32 c.m casStateNoLock casStateWriteLock
          = (true, { c.m with state := casStateWriteLock }) := by
        rw [cas_true_iff]; exact ⟨h0, rfl⟩
      rw [hc] at h
      simp only [Option.some.injEq] at h
      subst h
      right
      simp [Conf.set, h0]
    · have hc : compareAndSwapInt32 c.m casStateNoLock casStateWriteLock = (false, c.m) := by
        rw [cas_false_iff]; exact ⟨h0, rfl⟩
      rw [hc] at h
      simp only [Option.some.injEq] at h
      subst h
      left
      simp [Conf.set, h0, Pc.lockWaiting]
  · cases a <;> simp [next, hpc, Ctx.expires] at h
    obtain ⟨-, h⟩ := h
    subst h
    simp [Conf.goto, hpc, Pc.lockWaiting, Pc.rank]

theorem lockWaiting_enabled {c : Conf} {w : Nat} (hw : (c.pc w).lockWaiting = true)
    (hb : ∀ ctx b, c.pc w = .wSelect ctx b → b < c.m.broadcastChan) :
    ∃ c1, next w .step c = some c1 := by
  rw [← Option.isSome_iff_exists]
  rcases (lockWaiting_iff _).1 hw with hpc | ⟨b, hpc⟩ | ⟨b, hpc⟩
  · simp only [next, hpc, Option.isSome_some]
  · by_cases h0 : c.m.state = casStateNoLock
    · have hc : compareAndSwapInt32 c.m casStateNoLock casStateWriteLock
          = (true, { c.m with state := casStateWriteLock }) := by
        rw [cas_true_iff]; exact ⟨h0, rfl⟩
      simp only [next, hpc, hc, Option.isSome_some]
    · have hc : compareAndSwapInt32 c.m casStateNoLock casStateWriteLock = (false, c.m) := by
        rw [cas_false_iff]; exact ⟨h0, rfl⟩
      simp only [next, hpc, hc, Option.isSome_some]
  · have := hb _ _ hpc
    simp only [next, hpc, isClosed, this, decide_True, if_true, Option.isSome_some]

theorem next_enter_unlock {c c1 : Conf} {t : Nat} {a : Act} (h : next t a c = some c1)
    (hp : c1.pc t = .uCas) : a = .call .unlock := by
  unfold next at h
  split at h
  all_goals (try split at h)
  all_goals (try split at h)
  all_goals (try simp only [Option.some.injEq, reduceCtorEq] at h)
  all_goals (try subst h)
  all_goals (try simp_all [Conf.goto, Conf.set])

theorem next_holders_other {c c1 : Conf} {t : Nat} {a : Act} (h : next t a c = some c1)
    (u : Nat) (hut : u ≠ t) :
    (u ∈ c1.readers ↔ u ∈ c.readers) ∧ (u ∈ c1.writers ↔ u ∈ c.writers) := by
  rcases next_holders h with ⟨hw, hr, -⟩ | ⟨-, -, -, hw, hr⟩ | ⟨-, -, hr, hw⟩
    | ⟨-, -, -, hw, hr⟩ | ⟨-, -, hr, hw⟩
  all_goals rw [hw, hr]
  · simp
  · simp [hut]
  · simp [hut]
  · exact ⟨Iff.rfl, List.mem_erase_of_ne hut⟩
  · exact ⟨List.mem_erase_of_ne hut, Iff.rfl⟩

theorem lockWaiting_holdsPermit {p : Pc} (h : p.lockWaiting = true) :
    p.holdsPermit = true := by
  rcases (lockWaiting_iff p).1 h with e | ⟨b, e⟩ | ⟨b, e⟩ <;> simp [e, Pc.holdsPermit]

theorem lockWaiting_not_outside {p : Pc} (h : p.lockWaiting = true) :
    p.outside = false ∧ p.broadcasting = false ∧ p ≠ .uCas ∧ 1 ≤ p.rank ∧ p.rank ≤ 3 := by
  rcases (lockWaiting_iff p).1 h with e | ⟨b, e⟩ | ⟨b, e⟩ <;>
    simp [e, Pc.outside, Pc.broadcasting, Pc.rank]

theorem outside_not_broadcasting {p : Pc} (h : p.outside = true) :
    p.broadcasting = false := by
  cases p <;> simp_all [Pc.outside, Pc.broadcasting]

theorem settled_state {c : Conf} {w : Nat} (hi : c.Inv) (hs : c.settled w) :
    c.m.state = casStateNoLock := by
  obtain ⟨ew, er, -⟩ := hs
  rcases hi.excl with ⟨-, -, es⟩ | ⟨v, ev, -, -⟩
  · rw [es, er]; simp [wrapInt32, casStateNoLock]
  · rw [ew] at ev; simp at ev

/-- A step of another task leaves a settled configuration settled and does
not touch the lock or the waiting writer. -/
theorem settled_step_other {c c1 : Conf} {w t : Nat} {a : Act} (hg : c.gateOk)
    (hw : (c.pc w).lockWaiting = true) (hs : c.settled w) (htw : t ≠ w)
    (h : next t a c = some c1) :
    c1.settled w ∧ c1.pc w = c.pc w ∧ c1.m = c.m := by
  obtain ⟨ew, er, ho⟩ := hs
  have ht := (gate_taken hg (lockWaiting_holdsPermit hw)).1
  obtain ⟨hm, hwr, hrd, hpc⟩ := next_outside h (ho t htw) ht
  refine ⟨⟨by rw [hwr, ew], by rw [hrd, er], fun u huw => ?_⟩,
    next_pc_other h w (Ne.symm htw), hm⟩
  by_cases hut : u = t
  · subst hut
    rcases hpc with h1 | ⟨-, h1⟩ | ⟨-, h1⟩
    · exact h1
    · rw [ew] at h1; simp at h1
    · rw [er] at h1; simp at h1
  · rw [next_pc_other h u hut]; exact ho u huw

/-- In a settled configuration every step of the waiting writer brings it
closer to the write lock, or takes it. -/
theorem settled_step_writer {c c1 : Conf} {w : Nat} {a : Act} (hi : c.Inv)
    (hw : (c.pc w).lockWaiting = true) (hs : c.settled w) (h : next w a c = some c1) :
    ((c1.pc w).lockWaiting = true ∧ c1.settled w ∧ (c1.pc w).rank < (c.pc w).rank)
      ∨ (c1.writers = [w] ∧ c1.readers = [] ∧ c1.m.state = casStateWriteLock) := by
  have h0 := settled_state hi hs
  obtain ⟨ew, er, ho⟩ := hs
  rcases next_lockWaiting h hw with ⟨hl, -, hwr, hrd, hrank⟩ | ⟨-, h1, hwr, hrd, -⟩
  · left
    refine ⟨hl, ⟨by rw [hwr, ew], by rw [hrd, er], fun u huw => ?_⟩, hrank h0⟩
    rw [next_pc_other h u huw]; exact ho u huw
  · right
    exact ⟨by rw [hwr, ew], by rw [hrd, er], h1⟩

/-- The waiting writer of a settled configuration is never blocked. -/
theorem settled_enabled {c : Conf} {w : Nat} (hi : c.Inv) (hk : c.wakeOk)
    (hw : (c.pc w).lockWaiting = true) (hs : c.settled w) :
    ∃ c1, next w .step c = some c1 := by
  refine lockWaiting_enabled hw (fun ctx b hpc => ?_)
  rcases hk.parkedWriter w ctx b hpc with h1 | h1 | ⟨u, hu⟩
  · exact h1
  · exact absurd (settled_state hi hs) h1
  · by_cases huw : u = w
    · subst huw
      rw [(lockWaiting_not_outside hw).2.1] at hu
      exact absurd hu Bool.false_ne_true
    · rw [outside_not_broadcasting (hs.2.2 u huw)] at hu
      exact absurd hu Bool.false_ne_true

/-- From a settled configuration, every schedule that gives the waiting
writer as many steps as its rank passes through a configuration in which it
holds the write lock. -/
theorem settled_progress (w : Nat) (l : List (Nat × Act)) :
    ∀ (c c1 : Conf), Reachable c → (c.pc w).lockWaiting = true → c.settled w →
      run l c = some c1 → (c.pc w).rank ≤ (l.filter (fun x => x.1 = w)).length →
      ∃ l1 l2 c2, l = l1 ++ l2 ∧ run l1 c = some c2 ∧ c2.writers = [w]
        ∧ c2.readers = [] ∧ c2.m.state = casStateWriteLock := by
  induction l with
  | nil =>
    intro c c1 _ hw _ _ hrank
    have := (lockWaiting_not_outside hw).2.2.2.1
    simp at hrank
    omega
  | cons x rest ih =>
    intro c c1 hc hw hs hrun hrank
    obtain ⟨t, a⟩ := x
    simp only [run] at hrun
    cases hn : next t a c with
    | none => rw [hn] at hrun; simp at hrun
    | some c2 =>
      rw [hn] at hrun
      have hc2 : Reachable c2 := Reachable.step t a hc hn
      by_cases htw : t = w
      · subst htw
        rcases settled_step_writer (Inv_of_reachable hc) hw hs hn with
          ⟨hl, hs2, hlt⟩ | ⟨e1, e2, e3⟩
        · have hr2 : (c2.pc t).rank ≤ (rest.filter (fun x => x.1 = t)).length := by
            simp [List.filter_cons] at hrank
            omega
          obtain ⟨l1, l2, c3, e, hr, hrest⟩ := ih c2 c1 hc2 hl hs2 hrun hr2
          refine ⟨(t, a) :: l1, l2, c3, by rw [e]; rfl, ?_, hrest⟩
          simp only [run, hn]; exact hr
        · refine ⟨[(t, a)], rest, c2, rfl, ?_, e1, e2, e3⟩
          simp only [run, hn]
      · obtain ⟨hs2, hpc, -⟩ :=
          settled_step_other (gateOk_of_reachable hc) hw hs htw hn
        have hl : (c2.pc w).lockWaiting = true := by rw [hpc]; exact hw
        have hr2 : (c2.pc w).rank ≤ (rest.filter (fun x => x.1 = w)).length := by
          rw [hpc]
          simpa [List.filter_cons, htw] using hrank
        obtain ⟨l1, l2, c3, e, hr, hrest⟩ := ih c2 c1 hc2 hl hs2 hrun hr2
        refine ⟨(t, a) :: l1, l2, c3, by rw [e]; rfl, ?_, hrest⟩
        simp only [run, hn]; exact hr

/-- One step keeps `t` behind `w`, unless the step is `w` entering `Unlock`.
-/
theorem behind_step {c c1 : Conf} {w t u : Nat} {a : Act} (hc : Reachable c)
    (htw : t ≠ w) (hb : c.behind w t) (h : next u a c = some c1)
    (hne : (u, a) ≠ (w, Act.call .unlock)) : c1.behind w t := by
  rcases hb with ⟨hw, ho, hr, hwr⟩ | ⟨hmem, hpc⟩
  · by_cases huw : u = w
    · subst huw
      rcases next_lockWaiting h hw with ⟨hl, -, e1, e2, -⟩ | ⟨-, -, e1, e2, e3⟩
      · left
        refine ⟨hl, ?_, by rw [e2]; exact hr, by rw [e1]; exact hwr⟩
        rw [next_pc_other h t htw]; exact ho
      · right
        exact ⟨by rw [e1]; exact List.mem_cons_self _ _, by rw [e3]; simp⟩
    · left
      have hpw : c1.pc w = c.pc w := next_pc_other h w (Ne.symm huw)
      by_cases hut : u = t
      · subst hut
        have ht := (gate_taken (gateOk_of_reachable hc) (lockWaiting_holdsPermit hw)).1
        obtain ⟨-, e1, e2, hpc⟩ := next_outside h ho ht
        refine ⟨by rw [hpw]; exact hw, ?_, by rw [e2]; exact hr, by rw [e1]; exact hwr⟩
        rcases hpc with h1 | ⟨-, h1⟩ | ⟨-, h1⟩
        · exact h1
        · exact absurd h1 hwr
        · exact absurd h1 hr
      · have hm := next_holders_other h t (Ne.symm hut)
        refine ⟨by rw [hpw]; exact hw, ?_, fun hx => hr (hm.1.1 hx), fun hx => hwr (hm.2.1 hx)⟩
        rw [next_pc_other h t (Ne.symm hut)]; exact ho
  · right
    by_cases huw : u = w
    · subst huw
      constructor
      · rcases next_holders h with ⟨e, -, -⟩ | ⟨-, -, -, e, -⟩ | ⟨-, -, -, e⟩
          | ⟨hp, -⟩ | ⟨-, -, -, e⟩
        · rw [e]; exact hmem
        · rw [e]; exact List.mem_cons_of_mem _ hmem
        · rw [e]; exact hmem
        · exact absurd hp hpc
        · rw [e]; exact hmem
      · intro hp
        have := next_enter_unlock h hp
        exact hne (by rw [this])
    · exact ⟨((next_holders_other h w (Ne.symm huw)).2).2 hmem,
        by rw [next_pc_other h w (Ne.symm huw)]; exact hpc⟩

/-- As long as the schedule does not make `w` call `Unlock`, `t` stays behind
`w`. -/
theorem behind_run (w t : Nat) (htw : t ≠ w) (l : List (Nat × Act)) :
    ∀ (c c1 : Conf), Reachable c → c.behind w t → run l c = some c1 →
      (w, Act.call .unlock) ∉ l → c1.behind w t := by
  induction l with
  | nil =>
    intro c c1 _ hb hrun _
    simp [run] at hrun
    rw [← hrun]; exact hb
  | cons x rest ih =>
    intro c c1 hc hb hrun hno
    obtain ⟨u, a⟩ := x
    simp only [run] at hrun
    cases hn : next u a c with
    | none => rw [hn] at hrun; simp at hrun
    | some c2 =>
      rw [hn] at hrun
      have hne : (u, a) ≠ (w, Act.call .unlock) := fun e => hno (by rw [e]; simp)
      exact ih c2 c1 (Reachable.step u a hc hn) (behind_step hc htw hb hn hne) hrun
        (fun hx => hno (List.mem_cons_of_mem _ hx))

theorem behind_holds_nothing {c : Conf} {w t : Nat} (hi : c.Inv) (htw : t ≠ w)
    (hb : c.behind w t) : t ∉ c.readers ∧ t ∉ c.writers := by
  rcases hb with ⟨-, -, hr, hwr⟩ | ⟨hmem, -⟩
  · exact ⟨hr, hwr⟩
  · rcases hi.excl with ⟨ew, -, -⟩ | ⟨v, ev, er, -⟩
    · rw [ew] at hmem; simp at hmem
    · rw [ev] at hmem
      have : w = v := by simpa using hmem
      subst this
      rw [er, ev]
      simp [htw]

theorem run_pc_other (t : Nat) (l : List (Nat × Act)) :
    ∀ (c c1 : Conf), run l c = some c1 → (∀ x ∈ l, x.1 ≠ t) → c1.pc t = c.pc t := by
  induction l with
  | nil => intro c c1 h _; simp [run] at h; rw [← h]
  | cons x rest ih =>
    intro c c1 h hne
    obtain ⟨u, a⟩ := x
    simp only [run] at h
    cases hn : next u a c with
    | none => rw [hn] at h; simp at h
    | some c2 =>
      rw [hn] at h
      have hut : t ≠ u := fun e => hne (u, a) (List.mem_cons_self _ _) e.symm
      rw [ih c2 c1 h (fun x hx => hne x (List.mem_cons_of_mem _ hx)), next_pc_other hn t hut]

/-- C10, as stated, fails: when writer 3 begins to wait in `Lock` (parked with
the permit after a failed `CAS`) reader 1 is the only holder, and reader 2 has
passed the turnstile earlier and is still parked.  Reader 2 then takes the
read lock and reader 1 calls `RUnlock`: every reader that held the lock when
the writer began to wait has released, yet the writer has not acquired and
cannot: it is parked on an open channel, with no step enabled, while reader 2
holds the lock. -/
theorem C10_counterexample_slow_reader :
    (run slowReaderWaiting Conf.init).map (fun c => (c.pc 3, c.m, c.writers, c.readers))
      = some (.wSelect .background 1, ⟨1, 1, 1⟩, [], [1])
    ∧ (run slowReaderWaiting Conf.init).map (fun c => c.pc 2)
      = some (.rSelect .background 0)
    ∧ (run (slowReaderWaiting ++ slowReaderLate) Conf.init).map
        (fun c => (c.pc 3, c.m, c.writers, c.readers))
      = some (.wSelect .background 1, ⟨1, 1, 1⟩, [], [2])
    ∧ ((run (slowReaderWaiting ++ slowReaderLate) Conf.init).bind (next 3 .step)).isNone
      = true
    ∧ ((run (slowReaderWaiting ++ slowReaderLate) Conf.init).bind (next 3 .timeout)).isNone
      = true := by
  refine ⟨?_, ?_, ?_, ?_, ?_⟩ <;> decide

/-- C10, amended.  Let writer `w` wait in `Lock` with the permit.  (1) A task
that is outside the protocol or at the turnstile stays there, whatever it
does, and changes neither the lock nor the holders (it can only enter a
release of a lock it holds).  (2) Once nobody holds the lock and every other
task is outside or at the turnstile, so that every task that held the lock or
had passed the turnstile before has finished: the writer has a step enabled;
each of its steps lowers its rank or takes the write lock; no step of another
task changes the lock, the settled state or the writer; hence every schedule
with three steps of the writer passes through a configuration in which it
holds the write lock.  (3) A task that had not passed the turnstile and holds
nothing, holds nothing for as long as the writer has not called `Unlock`.
(4) In `TestCASNoStarve` the writer takes the lock after readers 0 and 1 have
released, and reader 3, which arrived later, only after the writer's `Unlock`.
-/
theorem C10_no_starvation (c : Conf) (w : Nat) (hc : Reachable c)
    (hw : (c.pc w).lockWaiting = true) :
    (∀ t a c1, t ≠ w → (c.pc t).outside = true → next t a c = some c1 →
        c1.m = c.m ∧ c1.writers = c.writers ∧ c1.readers = c.readers
          ∧ ((c1.pc t).outside = true ∨ (c1.pc t = .uCas ∧ t ∈ c.writers)
              ∨ (c1.pc t = .ruAdd ∧ t ∈ c.readers)))
    ∧ (c.settled w →
        (∃ c1, next w .step c = some c1)
        ∧ (∀ a c1, next w a c = some c1 →
            ((c1.pc w).lockWaiting = true ∧ c1.settled w ∧ (c1.pc w).rank < (c.pc w).rank)
              ∨ (c1.writers = [w] ∧ c1.readers = [] ∧ c1.m.state = casStateWriteLock))
        ∧ (∀ t a c1, t ≠ w → next t a c = some c1 →
            c1.settled w ∧ c1.pc w = c.pc w ∧ c1.m = c.m)
        ∧ (∀ l c1, run l c = some c1 → 3 ≤ (l.filter (fun x => x.1 = w)).length →
            ∃ l1 l2 c2, l = l1 ++ l2 ∧ run l1 c = some c2 ∧ c2.writers = [w]
              ∧ c2.readers = [] ∧ c2.m.state = casStateWriteLock))
    ∧ (∀ t l c1, t ≠ w → (c.pc t).outside = true → t ∉ c.readers → t ∉ c.writers →
        run l c = some c1 → (w, Act.call .unlock) ∉ l → t ∉ c1.readers ∧ t ∉ c1.writers)
    ∧ ((run noStarveWaiting Conf.init).map (fun c => (c.pc 2, c.m, c.writers, c.readers))
          = some (.wSelect .background 0, ⟨0, 1, 1⟩, [], [])
        ∧ (run (noStarveWaiting ++ noStarveWriter) Conf.init).map
            (fun c => (c.pc 3, c.m, c.writers, c.readers))
          = some (.rSelect .background 1, ⟨-1, 0, 1⟩, [2], [])
        ∧ (run (noStarveWaiting ++ noStarveWriter ++ noStarveReader) Conf.init).map
            (fun c => (c.pc 3, c.m, c.writers, c.readers))
          = some (.idle none, ⟨1, 0, 2⟩, [], [3])) := by
  have hi := Inv_of_reachable hc
  have hg := gateOk_of_reachable hc
  have hk := wakeOk_of_reachable hc
  have ht := (gate_taken hg (lockWaiting_holdsPermit hw)).1
  refine ⟨?_, ?_, ?_, ?_⟩
  · intro t a c1 _ ho hn
    exact next_outside hn ho ht
  · intro hs
    refine ⟨settled_enabled hi hk hw hs, ?_, ?_, ?_⟩
    · intro a c1 hn
      exact settled_step_writer hi hw hs hn
    · intro t a c1 htw hn
      exact settled_step_other hg hw hs htw hn
    · intro l c1 hrun hlen
      have hr := (lockWaiting_not_outside hw).2.2.2.2
      exact settled_progress w l c c1 hc hw hs hrun (by omega)
  · intro t l c1 htw ho hr hwr hrun hno
    have hb : c.behind w t := Or.inl ⟨hw, ho, hr, hwr⟩
    exact behind_holds_nothing (Inv_of_reachable (reachable_run l hc hrun)) htw
      (behind_run w t htw l c c1 hc hb hrun hno)
  · refine ⟨?_, ?_, ?_⟩ <;> decide

/-- C10 amended, at the configuration of `TestCASNoStarve` in which readers 0
and 1 have released and writer 2 is still parked: the configuration is
settled, the writer's next steps take the write lock, and reader 3 holds
nothing when the writer has returned from `Lock`. -/
theorem C10_no_starvation_witness :
    ∃ c, run noStarveWaiting Conf.init = some c
      ∧ (c.pc 2).lockWaiting = true
      ∧ c.settled 2
      ∧ (∃ l1 l2 c2, noStarveWriter = l1 ++ l2 ∧ run l1 c = some c2 ∧ c2.writers = [2])
      ∧ (∀ c1, run noStarveWriter c = some c1 → 3 ∉ c1.readers ∧ 3 ∉ c1.writers) := by
  have h0 : (run noStarveWaiting Conf.init).map
      (fun c => ((c.pc 2).lockWaiting, c.writers, c.readers,
        (c.pc 0).outside && (c.pc 1).outside && (c.pc 3).outside && (c.pc 4).outside))
      = some (true, [], [], true) := by decide
  have h1 : ((run noStarveWaiting Conf.init).bind (run noStarveWriter)).isSome = true := by
    decide
  cases h : run noStarveWaiting Conf.init with
  | none => rw [h] at h0; simp at h0
  | some c =>
    rw [h] at h0 h1
    simp only [Option.map_some', Option.some.injEq, Prod.mk.injEq, Bool.and_eq_true,
      Option.some_bind] at h0 h1
    obtain ⟨hw, ew, er, ⟨⟨⟨o0, o1⟩, o3⟩, o4⟩⟩ := h0
    have hc := reachable_run _ Reachable.init h
    have hs : c.settled 2 := by
      refine ⟨ew, er, fun t ht => ?_⟩
      by_cases hlt : t < 5
      · interval_cases t
        · exact o0
        · exact o1
        · exact absurd rfl ht
        · exact o3
        · exact o4
      · have hun : ∀ x ∈ noStarveWaiting, x.1 ≠ t := by
          have hb : ∀ x ∈ noStarveWaiting, x.1 < 5 := by decide
          intro x hx e
          have := hb x hx
          omega
        rw [run_pc_other t _ _ _ h hun]
        rfl
    have key := C10_no_starvation c 2 hc hw
    obtain ⟨c1, hrun⟩ := Option.isSome_iff_exists.1 h1
    have ho3 : (c.pc 3).outside = true := o3
    refine ⟨c, rfl, hw, hs, ?_, ?_⟩
    · obtain ⟨l1, l2, c2, e, hr, hwr, -⟩ := (key.2.1 hs).2.2.2 noStarveWriter c1 hrun (by decide)
      exact ⟨l1, l2, c2, e, hr, hwr⟩
    · intro c1 hr
      exact key.2.2.1 3 noStarveWriter c1 (by decide) ho3 (by rw [er]; simp)
        (by rw [ew]; simp) hr (by decide)

/-! ## Faulting release -/

theorem TryLock_false_of_state_ne (fuel : Nat) (m : CasMutex) (h : m.state ≠ casStateNoLock) :
    TryLock (fuel + 1) m = .ret false m := by
  simp only [TryLock, tryAcquire, tryLock_succ_nil]
  simp only [casStateNoLock] at h
  split_ifs with hg
  · simp only [h, if_false, release_after_take]
  · rfl

theorem RTryLock_false_of_state_neg (fuel : Nat) (m : CasMutex) (h : m.state < 0) :
    RTryLock (fuel + 1) m = .ret false m := by
  simp only [RTryLock, tryAcquire]
  split_ifs with hg
  · simp only [release_after_take, rTryLock_succ_nil]
    rw [if_neg (by omega)]
  · rfl

/-- C11: `RUnlock` applies its decrement before it classifies the result, so
for every `int32` state `s` above -2147483648 the state after `RUnlock` is
`s - 1` whether or not it panics (it panics exactly when `s <= 0`), and the
permit count and the channel of a panicking call are untouched.  From state 0
it panics and leaves `WriteLock`, after which `TryLock` and `RTryLock` return
false; from state -1 it panics and leaves -2, which `getState` classifies as
`Undefined`, after which `Unlock` panics.  On a fresh lock, that nobody holds,
`RUnlock` makes `TryLock` and `RTryLock` fail; after `Lock`, `RUnlock` makes
the writer's own `Unlock` panic. -/
theorem C11_RUnlock_decrements_even_when_it_panics (m : CasMutex)
    (hlo : -2147483648 < m.state) (hhi : m.state ≤ 2147483647) :
    (RUnlock m).2.state = m.state - 1
    ∧ (RUnlock m).2.turnstile = m.turnstile
    ∧ ((RUnlock m).1 = some "RUnlock failed" ↔ m.state ≤ 0)
    ∧ ((RUnlock m).1 ≠ none → (RUnlock m).2 = { m with state := m.state - 1 })
    ∧ (m.state = casStateNoLock →
        RUnlock m = (some "RUnlock failed", { m with state := casStateWriteLock })
          ∧ ∀ fuel, TryLock (fuel + 1) (RUnlock m).2 = .ret false (RUnlock m).2
              ∧ RTryLock (fuel + 1) (RUnlock m).2 = .ret false (RUnlock m).2)
    ∧ (m.state = casStateWriteLock →
        RUnlock m = (some "RUnlock failed", { m with state := casStateUndefined })
          ∧ getState (RUnlock m).2.state = casStateUndefined
          ∧ Unlock (RUnlock m).2 = (some "Unlock failed", (RUnlock m).2))
    ∧ (RUnlock NewCASMutex = (some "RUnlock failed", ⟨-1, 0, 0⟩)
        ∧ TryLock 1 ⟨-1, 0, 0⟩ = .ret false ⟨-1, 0, 0⟩
        ∧ RTryLock 1 ⟨-1, 0, 0⟩ = .ret false ⟨-1, 0, 0⟩)
    ∧ (Lock 1 NewCASMutex = .ret () ⟨-1, 0, 0⟩
        ∧ RUnlock ⟨-1, 0, 0⟩ = (some "RUnlock failed", ⟨-2, 0, 0⟩)
        ∧ Unlock ⟨-2, 0, 0⟩ = (some "Unlock failed", ⟨-2, 0, 0⟩)) := by
  have hw : wrapInt32 (m.state + -1) = m.state - 1 := by
    rw [show m.state + -1 = m.state - 1 by ring]
    exact wrapInt32_of_range (by omega) (by omega)
  have key : RUnlock m =
      if m.state ≤ 0 then (some "RUnlock failed", { m with state := m.state - 1 })
      else if m.state = 1 then
        (none, { m with state := m.state - 1, broadcastChan := m.broadcastChan + 1 })
      else (none, { m with state := m.state - 1 }) := by
    simp only [RUnlock, addInt32, hw, getState, broadcast, casStateWriteLock, casStateNoLock,
      casStateReadLock, casStateUndefined]
    by_cases h0 : m.state ≤ 0
    · by_cases h1 : m.state = 0
      · simp [h1]
      · have a1 : ¬ (m.state - 1 = -1) := by omega
        have a2 : ¬ (m.state - 1 = 0) := by omega
        have a3 : ¬ (m.state - 1 ≥ 1) := by omega
        simp [h0, a1, a2, a3]
    · by_cases h2 : m.state = 1
      · simp [h2]
      · have a1 : ¬ (m.state - 1 = -1) := by omega
        have a2 : ¬ (m.state - 1 = 0) := by omega
        have a3 : m.state - 1 ≥ 1 := by omega
        simp [h0, h2, a1, a2, a3]
  refine ⟨?_, ?_, ?_, ?_, ?_, ?_, ⟨by decide, by decide, by decide⟩,
    ⟨by decide, by decide, by decide⟩⟩
  · rw [key]; split_ifs <;> rfl
  · rw [key]; split_ifs <;> rfl
  · rw [key]; split_ifs with h1 h2 <;> simp [h1]
  · rw [key]; split_ifs with h1 h2 <;> simp
  · intro h0
    simp only [casStateNoLock] at h0
    have e : RUnlock m = (some "RUnlock failed", { m with state := casStateWriteLock }) := by
      rw [key, if_pos (by omega), h0]; rfl
    refine ⟨e, fun fuel => ?_⟩
    rw [e]
    exact ⟨TryLock_false_of_state_ne fuel _ (by simp [casStateWriteLock, casStateNoLock]),
      RTryLock_false_of_state_neg fuel _ (by simp [casStateWriteLock])⟩
  · intro h1
    simp only [casStateWriteLock] at h1
    have e : RUnlock m = (some "RUnlock failed", { m with state := casStateUndefined }) := by
      rw [key, if_pos (by omega), h1]; rfl
    refine ⟨e, ?_, ?_⟩
    · rw [e]; rfl
    · rw [e]
      simp [Unlock, compareAndSwapInt32, casStateUndefined, casStateWriteLock]

/-- C11 at concrete locks: an unheld lock, a write-locked lock, and a lock
held by three readers. -/
theorem C11_RUnlock_decrements_even_when_it_panics_witness :
    (RUnlock ⟨0, 0, 0⟩).2.state = 0 - 1
      ∧ (RUnlock ⟨-1, 0, 0⟩).2.state = -1 - 1
      ∧ (RUnlock ⟨3, 0, 0⟩).2.state = 3 - 1
      ∧ (RUnlock ⟨0, 0, 0⟩).1 = some "RUnlock failed"
      ∧ Unlock (RUnlock ⟨-1, 0, 0⟩).2 = (some "Unlock failed", (RUnlock ⟨-1, 0, 0⟩).2) :=
  ⟨(C11_RUnlock_decrements_even_when_it_panics ⟨0, 0, 0⟩ (by decide) (by decide)).1,
   (C11_RUnlock_decrements_even_when_it_panics ⟨-1, 0, 0⟩ (by decide) (by decide)).1,
   (C11_RUnlock_decrements_even_when_it_panics ⟨3, 0, 0⟩ (by decide) (by decide)).1,
   (C11_RUnlock_decrements_even_when_it_panics ⟨0, 0, 0⟩ (by decide) (by decide)).2.2.1.2
     (by decide),
   ((C11_RUnlock_decrements_even_when_it_panics ⟨-1, 0, 0⟩ (by decide) (by decide)).2.2.2.2.2.1
     rfl).2.2⟩

end GoLock
